import Mathlib

/-!
# Verification of the keyboard-layout analyzer core

A shallow embedding of the scoring engine (`calculator.go`) and the
simulated-annealing optimizer of the `kbda` keyboard-layout analyzer,
together with proofs about the embedded definitions.

Modelling conventions:
* Go `float64` values are modelled as exact rationals (`ℚ`); all claims
  under study are algebraic/order facts, not rounding facts.
* Go maps iterated in loops are modelled as association lists; every loop
  accumulator that is only ever incremented is rendered as a list sum of a
  per-entry contribution function, which is exactly what the loop computes.
* The global `math/rand` generator is modelled as an explicit stream state
  (`Rng`) threaded through the search; the outcome of the Metropolis test
  `rand.Float64() < math.Exp(-delta/temperature)` is modelled as a Boolean
  drawn from the stream (the short-circuit `delta < 0` is kept exactly).
* `unicode.IsUpper` / `strings.ToLower` are modelled by Lean's ASCII
  `Char.isUpper` / `String.toLower`; the two agree on ASCII data, which is
  all the concrete inputs used here contain.
-/

/-- Row index of the 3×10 grid. -/
abbrev Row := Fin 3

/-- Column index of the 3×10 grid. -/
abbrev Col := Fin 10

/-- All 30 grid cells in row-major order (row 0 first), the order in which
every Go loop `for row … for col …` visits them. -/
def cells : List (Row × Col) :=
  (List.finRange 3).flatMap fun r => (List.finRange 10).map fun c => (r, c)

/-- The per-column finger table `fingerMap = [0,1,2,3,3,4,4,5,6,7]` from
`getFingerForKey` in calculator.go. -/
def fingerMap : List ℕ := [0, 1, 2, 3, 3, 4, 4, 5, 6, 7]

/-- `getFingerForKey` from calculator.go: the finger (0–7) for position
`(row, col)`; the row is ignored, the column indexes `fingerMap`. -/
def getFingerForKey (_row : Row) (col : Col) : ℕ :=
  fingerMap.getD col.val 0

/-- `getHalf` from calculator.go: 0 for columns 0–4 (left half),
1 for columns 5–9 (right half). -/
def getHalf (col : Col) : ℕ :=
  if col.val < 5 then 0 else 1

/-- `Layout` from types.go: a name and a 3×10 grid of key strings
(the empty string denotes an empty slot). -/
structure Layout where
  Name : String
  Keys : Row → Col → String

/-- `BigramIndividualCoeff` from types.go: a per-position-pair override
coefficient; positions are 0-based cell numbers `row*10+col`. -/
structure BigramIndividualCoeff where
  Pos1 : ℤ
  Pos2 : ℤ
  Coeff : ℚ

/-- `WeightConfig` from types.go (the fields the scoring engine reads). -/
structure WeightConfig where
  SHB : ℚ
  SFB : ℚ
  HVB : ℚ
  FVB : ℚ
  HDB : ℚ
  FDB : ℚ
  HFB : ℚ
  HSB : ℚ
  FSB : ℚ
  LSB : ℚ
  SRB : ℚ
  AFI : ℚ
  AFO : ℚ
  HDI : ℚ
  FDI : ℚ
  D18 : ℚ
  D27 : ℚ
  D36 : ℚ
  D45 : ℚ
  HSBStrictMode : ℤ
  FSBStrictMode : ℤ
  LSBStrictMode : ℤ
  TotalEffortNorm : ℚ

/-- `KeyboardConfig` from types.go (the fields the core reads). -/
structure KeyboardConfig where
  EffortMatrix : Row → Col → ℚ
  FixedPositions : Row → Col → String
  MaxFingerEfforts : Fin 8 → ℚ
  FingerEffortPenalties : Fin 8 → ℚ
  MaxRowEfforts : Row → ℚ
  RowEffortPenalties : Row → ℚ
  Weights : WeightConfig
  BigramIndividualCoeffs : List BigramIndividualCoeff

/-- `LanguageData` from types.go: character and bigram frequency tables,
modelled as association lists. -/
structure LanguageData where
  Language : String
  Characters : List (String × ℚ)
  Bigrams : List (String × ℚ)

/-- `BigramAnalysis` from types.go. -/
structure BigramAnalysis where
  SHB : ℚ
  SFB : ℚ
  HVB : ℚ
  FVB : ℚ
  HDB : ℚ
  FDB : ℚ
  HFB : ℚ
  HSB : ℚ
  FSB : ℚ
  LSB : ℚ
  SRB : ℚ
  AFI : ℚ
  AFO : ℚ
  HSB2 : ℚ
  FSB2 : ℚ
  LSB2 : ℚ
  SKB : ℚ
  TIB : ℚ

/-- `LayoutAnalysis` from types.go (the numeric payload; the back-pointer
`Config` and the display-only `LayoutIndex` are omitted). -/
structure LayoutAnalysis where
  LayoutName : String
  TotalEffort : ℚ
  EffortByRow : Row → ℚ
  EffortByFinger : Fin 8 → ℚ
  EffortByHalf : Fin 2 → ℚ
  BigramAnalysis : BigramAnalysis
  HDI : ℚ
  FDI : ℚ
  MEP : ℚ
  WeightedScore : ℚ

/-- The `keyPos` table built at the top of `AnalyzeLayout`: the cell holding
character `c`. Go inserts every nonempty key while scanning cells in
row-major order, so on duplicates the last row-major occurrence wins. -/
def keyPos (L : Layout) (c : String) : Option (Row × Col) :=
  (cells.filter fun p => L.Keys p.1 p.2 = c ∧ L.Keys p.1 p.2 ≠ "").getLast?

/-- Per-entry contribution of a character table entry to `totalFreq` in
`calculateEffort`: its frequency if the character is placed, else 0. -/
def charFreqContrib (L : Layout) (e : String × ℚ) : ℚ :=
  match keyPos L e.1 with
  | some _ => e.2
  | none => 0

/-- Per-entry contribution to `totalEffort` in `calculateEffort`:
`effort[row][col] * freq` for a placed character. -/
def charEffortContrib (L : Layout) (config : KeyboardConfig) (e : String × ℚ) : ℚ :=
  match keyPos L e.1 with
  | some p => config.EffortMatrix p.1 p.2 * e.2
  | none => 0

/-- `totalFreq` in `calculateEffort`: total frequency of placed characters. -/
def totalFreq (L : Layout) (langData : LanguageData) : ℚ :=
  (langData.Characters.map (charFreqContrib L)).sum

/-- `totalEffort` in `calculateEffort`. -/
def totalEffortSum (L : Layout) (config : KeyboardConfig) (langData : LanguageData) : ℚ :=
  (langData.Characters.map (charEffortContrib L config)).sum

/-- `uniformEffort` in `calculateEffort`: the mean of the 30 position costs. -/
def uniformEffort (config : KeyboardConfig) : ℚ :=
  (cells.map fun p => config.EffortMatrix p.1 p.2).sum / 30

/-- `rowTotalFreqs[row]` in `calculateEffort`. -/
def rowFreq (L : Layout) (langData : LanguageData) (r : Row) : ℚ :=
  (langData.Characters.map fun e =>
    match keyPos L e.1 with
    | some p => if p.1 = r then e.2 else 0
    | none => 0).sum

/-- `fingerFreqs[f]` in `calculateEffort`. The Go guard `f < 8` before the
write is subsumed: `getFingerForKey … = i.val` already forces `f < 8`. -/
def fingerFreq (L : Layout) (langData : LanguageData) (i : Fin 8) : ℚ :=
  (langData.Characters.map fun e =>
    match keyPos L e.1 with
    | some p => if getFingerForKey p.1 p.2 = i.val then e.2 else 0
    | none => 0).sum

/-- `halfFreqs[h]` in `calculateEffort`. -/
def halfFreq (L : Layout) (langData : LanguageData) (h : Fin 2) : ℚ :=
  (langData.Characters.map fun e =>
    match keyPos L e.1 with
    | some p => if getHalf p.2 = h.val then e.2 else 0
    | none => 0).sum

/-- `analysis.TotalEffort` as set by `calculateEffort` (zero-valued when no
character matched, as the Go field stays zero-initialized). -/
def calcTotalEffort (L : Layout) (config : KeyboardConfig) (langData : LanguageData) : ℚ :=
  if 0 < totalFreq L langData then
    totalEffortSum L config langData / totalFreq L langData / uniformEffort config * 100
  else 0

/-- `analysis.EffortByRow` as set by `calculateEffort`. -/
def calcEffortByRow (L : Layout) (langData : LanguageData) (r : Row) : ℚ :=
  if 0 < totalFreq L langData then rowFreq L langData r / totalFreq L langData * 100 else 0

/-- `analysis.EffortByFinger` as set by `calculateEffort`. -/
def calcEffortByFinger (L : Layout) (langData : LanguageData) (i : Fin 8) : ℚ :=
  if 0 < totalFreq L langData then fingerFreq L langData i / totalFreq L langData * 100 else 0

/-- `analysis.EffortByHalf` as set by `calculateEffort`. -/
def calcEffortByHalf (L : Layout) (langData : LanguageData) (h : Fin 2) : ℚ :=
  if 0 < totalFreq L langData then halfFreq L langData h / totalFreq L langData * 100 else 0

/-- The per-bigram data extracted at the top of the loop in
`calculateBigrams`: the two runes of a two-rune bigram together with their
grid positions, or `none` when the bigram is skipped (not two runes, or a
character not placed on the layout). -/
def bigramInfo (L : Layout) (s : String) : Option (Char × Char × (Row × Col) × (Row × Col)) :=
  match s.data with
  | [c1, c2] =>
    match keyPos L (String.singleton c1), keyPos L (String.singleton c2) with
    | some p1, some p2 => some (c1, c2, p1, p2)
    | _, _ => none
  | _ => none

/-- `rowDiff` in `calculateBigrams`: `abs(row1 - row2)`. -/
def rowDiff (p1 p2 : Row × Col) : ℕ :=
  ((p1.1.val : ℤ) - (p2.1.val : ℤ)).natAbs

/-- `colDiff` in `calculateBigrams`: `abs(col1 - col2)`. -/
def colDiff (p1 p2 : Row × Col) : ℕ :=
  ((p1.2.val : ℤ) - (p2.2.val : ℤ)).natAbs

/-- `isSameHand` in `calculateBigrams`: both columns in 0–3 or both in 6–9
(the Go bounds `col ≥ 0` and `col ≤ 9` hold trivially for `Fin 10`). -/
def isSameHand (c1 c2 : Col) : Prop :=
  (c1.val ≤ 3 ∧ c2.val ≤ 3) ∨ (6 ≤ c1.val ∧ 6 ≤ c2.val)

instance (c1 c2 : Col) : Decidable (isSameHand c1 c2) := by
  unfold isSameHand; infer_instance

/-- `finger…IsSpecial` in `calculateBigrams`: finger index in {1,2,5,6}
(1-based fingers 2, 3, 6, 7). -/
def fingerIsSpecial (f : ℕ) : Prop :=
  f = 1 ∨ f = 2 ∨ f = 5 ∨ f = 6

instance (f : ℕ) : Decidable (fingerIsSpecial f) := by
  unfold fingerIsSpecial; infer_instance

/-- The geometric guard of the HSB branch of `calculateBigrams`: enclosing
same-half test, same hand, different fingers, adjacent rows, both columns
outside the two center columns. -/
def hsbPattern (p1 p2 : Row × Col) : Prop :=
  getHalf p1.2 = getHalf p2.2 ∧ isSameHand p1.2 p2.2 ∧
  getFingerForKey p1.1 p1.2 ≠ getFingerForKey p2.1 p2.2 ∧
  rowDiff p1 p2 = 1 ∧ p1.2.val ≠ 4 ∧ p1.2.val ≠ 5 ∧ p2.2.val ≠ 4 ∧ p2.2.val ≠ 5

instance (p1 p2 : Row × Col) : Decidable (hsbPattern p1 p2) := by
  unfold hsbPattern; infer_instance

/-- `isHSBValid` in `calculateBigrams`: the character on the lower of the
two rows (`lowerRow`, the larger row index) sits on a special finger. -/
def hsbLowerSpecial (p1 p2 : Row × Col) : Prop :=
  let lowerRow : Row := if p1.1.val < p2.1.val then p2.1 else p1.1
  (lowerRow = p1.1 ∧ fingerIsSpecial (getFingerForKey p1.1 p1.2)) ∨
  (lowerRow = p2.1 ∧ fingerIsSpecial (getFingerForKey p2.1 p2.2))

instance (p1 p2 : Row × Col) : Decidable (hsbLowerSpecial p1 p2) := by
  unfold hsbLowerSpecial; infer_instance

/-- The geometric guard of the FSB branch of `calculateBigrams`. -/
def fsbPattern (p1 p2 : Row × Col) : Prop :=
  getHalf p1.2 = getHalf p2.2 ∧ isSameHand p1.2 p2.2 ∧
  getFingerForKey p1.1 p1.2 ≠ getFingerForKey p2.1 p2.2 ∧
  rowDiff p1 p2 = 2 ∧
  ((p1.1.val = 0 ∧ p2.1.val = 2) ∨ (p1.1.val = 2 ∧ p2.1.val = 0)) ∧
  p1.2.val ≠ 4 ∧ p1.2.val ≠ 5 ∧ p2.2.val ≠ 4 ∧ p2.2.val ≠ 5

instance (p1 p2 : Row × Col) : Decidable (fsbPattern p1 p2) := by
  unfold fsbPattern; infer_instance

/-- `isFSBValid` in `calculateBigrams`: the bottom-row (row index 2)
character sits on a special finger. -/
def fsbBottomSpecial (p1 p2 : Row × Col) : Prop :=
  (p1.1.val = 2 ∧ fingerIsSpecial (getFingerForKey p1.1 p1.2)) ∨
  (p2.1.val = 2 ∧ fingerIsSpecial (getFingerForKey p2.1 p2.2))

instance (p1 p2 : Row × Col) : Decidable (fsbBottomSpecial p1 p2) := by
  unfold fsbBottomSpecial; infer_instance

/-- `isLSBPattern` in `calculateBigrams` (under the enclosing same-half
test): the column pairs (2,4), (4,2), (5,7), (7,5). -/
def lsbPattern (p1 p2 : Row × Col) : Prop :=
  getHalf p1.2 = getHalf p2.2 ∧
  ((p1.2.val = 2 ∧ p2.2.val = 4) ∨ (p1.2.val = 4 ∧ p2.2.val = 2) ∨
   (p1.2.val = 5 ∧ p2.2.val = 7) ∨ (p1.2.val = 7 ∧ p2.2.val = 5))

instance (p1 p2 : Row × Col) : Decidable (lsbPattern p1 p2) := by
  unfold lsbPattern; infer_instance

/-- `isLSBValid` in `calculateBigrams`: one character on an index finger
(1 or 4) and the other on a middle finger (2 or 5). -/
def lsbValid (p1 p2 : Row × Col) : Prop :=
  let f1 := getFingerForKey p1.1 p1.2
  let f2 := getFingerForKey p2.1 p2.2
  ((f1 = 1 ∨ f1 = 4) ∧ (f2 = 2 ∨ f2 = 5)) ∨ ((f2 = 1 ∨ f2 = 4) ∧ (f1 = 2 ∨ f1 = 5))

instance (p1 p2 : Row × Col) : Decidable (lsbValid p1 p2) := by
  unfold lsbValid; infer_instance

/-- `centerDist` in the AFI/AFO branch of `calculateBigrams`:
`abs(float64(col) - 4.5)`. -/
def centerDist (c : Col) : ℚ :=
  |(c.val : ℚ) - 9 / 2|

/-- Per-entry contribution to `totalBigramFreq` in `calculateBigrams`. -/
def bigramTotalContrib (L : Layout) (e : String × ℚ) : ℚ :=
  match bigramInfo L e.1 with
  | some _ => e.2
  | none => 0

/-- Per-entry contribution to the `shb` accumulator. -/
def shbContrib (L : Layout) (e : String × ℚ) : ℚ :=
  match bigramInfo L e.1 with
  | some (_, _, p1, p2) => if getHalf p1.2 = getHalf p2.2 then e.2 else 0
  | none => 0

/-- Per-entry contribution to the `sfb` accumulator. -/
def sfbContrib (L : Layout) (e : String × ℚ) : ℚ :=
  match bigramInfo L e.1 with
  | some (_, _, p1, p2) =>
    if getFingerForKey p1.1 p1.2 = getFingerForKey p2.1 p2.2 then e.2 else 0
  | none => 0

/-- Per-entry contribution to the `hvb` accumulator. -/
def hvbContrib (L : Layout) (e : String × ℚ) : ℚ :=
  match bigramInfo L e.1 with
  | some (_, _, p1, p2) =>
    if getHalf p1.2 = getHalf p2.2 ∧
       getFingerForKey p1.1 p1.2 = getFingerForKey p2.1 p2.2 ∧
       p1.2 = p2.2 ∧ rowDiff p1 p2 = 1 ∧ p1.2.val ≠ 4 ∧ p1.2.val ≠ 5 then e.2 else 0
  | none => 0

/-- Per-entry contribution to the `fvb` accumulator. -/
def fvbContrib (L : Layout) (e : String × ℚ) : ℚ :=
  match bigramInfo L e.1 with
  | some (_, _, p1, p2) =>
    if getHalf p1.2 = getHalf p2.2 ∧
       getFingerForKey p1.1 p1.2 = getFingerForKey p2.1 p2.2 ∧
       p1.2 = p2.2 ∧ rowDiff p1 p2 = 2 ∧ p1.2.val ≠ 4 ∧ p1.2.val ≠ 5 then e.2 else 0
  | none => 0

/-- Per-entry contribution to the `hdb` accumulator. -/
def hdbContrib (L : Layout) (e : String × ℚ) : ℚ :=
  match bigramInfo L e.1 with
  | some (_, _, p1, p2) =>
    if getHalf p1.2 = getHalf p2.2 ∧
       getFingerForKey p1.1 p1.2 = getFingerForKey p2.1 p2.2 ∧
       rowDiff p1 p2 = 1 ∧ colDiff p1 p2 = 1 then e.2 else 0
  | none => 0

/-- Per-entry contribution to the `fdb` accumulator. -/
def fdbContrib (L : Layout) (e : String × ℚ) : ℚ :=
  match bigramInfo L e.1 with
  | some (_, _, p1, p2) =>
    if getHalf p1.2 = getHalf p2.2 ∧
       getFingerForKey p1.1 p1.2 = getFingerForKey p2.1 p2.2 ∧
       rowDiff p1 p2 = 2 ∧ colDiff p1 p2 = 1 then e.2 else 0
  | none => 0

/-- Per-entry contribution to the `hfb` accumulator. -/
def hfbContrib (L : Layout) (e : String × ℚ) : ℚ :=
  match bigramInfo L e.1 with
  | some (_, _, p1, p2) =>
    if getHalf p1.2 = getHalf p2.2 ∧
       getFingerForKey p1.1 p1.2 = getFingerForKey p2.1 p2.2 ∧
       p1.1 = p2.1 ∧ colDiff p1 p2 = 1 then e.2 else 0
  | none => 0

/-- Per-entry contribution to the `srb` accumulator. -/
def srbContrib (L : Layout) (e : String × ℚ) : ℚ :=
  match bigramInfo L e.1 with
  | some (_, _, p1, p2) =>
    if getHalf p1.2 = getHalf p2.2 ∧ p1.1 = p2.1 ∧
       p1.2.val ≠ 4 ∧ p1.2.val ≠ 5 ∧ p2.2.val ≠ 4 ∧ p2.2.val ≠ 5 then e.2 else 0
  | none => 0

/-- Per-entry contribution to the `hsb` accumulator (strict mode routes
near-matches away; non-strict mode folds every pattern match in). -/
def hsbContrib (config : KeyboardConfig) (L : Layout) (e : String × ℚ) : ℚ :=
  match bigramInfo L e.1 with
  | some (_, _, p1, p2) =>
    if hsbPattern p1 p2 then
      if config.Weights.HSBStrictMode = 1 then
        if hsbLowerSpecial p1 p2 then e.2 else 0
      else e.2
    else 0
  | none => 0

/-- Per-entry contribution to the `hsb2` accumulator. -/
def hsb2Contrib (config : KeyboardConfig) (L : Layout) (e : String × ℚ) : ℚ :=
  match bigramInfo L e.1 with
  | some (_, _, p1, p2) =>
    if hsbPattern p1 p2 then
      if config.Weights.HSBStrictMode = 1 then
        if hsbLowerSpecial p1 p2 then 0 else e.2
      else 0
    else 0
  | none => 0

/-- Per-entry contribution to the `fsb` accumulator. -/
def fsbContrib (config : KeyboardConfig) (L : Layout) (e : String × ℚ) : ℚ :=
  match bigramInfo L e.1 with
  | some (_, _, p1, p2) =>
    if fsbPattern p1 p2 then
      if config.Weights.FSBStrictMode = 1 then
        if fsbBottomSpecial p1 p2 then e.2 else 0
      else e.2
    else 0
  | none => 0

/-- Per-entry contribution to the `fsb2` accumulator. -/
def fsb2Contrib (config : KeyboardConfig) (L : Layout) (e : String × ℚ) : ℚ :=
  match bigramInfo L e.1 with
  | some (_, _, p1, p2) =>
    if fsbPattern p1 p2 then
      if config.Weights.FSBStrictMode = 1 then
        if fsbBottomSpecial p1 p2 then 0 else e.2
      else 0
    else 0
  | none => 0

/-- Per-entry contribution to the `lsb` accumulator. -/
def lsbContrib (config : KeyboardConfig) (L : Layout) (e : String × ℚ) : ℚ :=
  match bigramInfo L e.1 with
  | some (_, _, p1, p2) =>
    if lsbPattern p1 p2 then
      if config.Weights.LSBStrictMode = 1 then
        if lsbValid p1 p2 then e.2 else 0
      else e.2
    else 0
  | none => 0

/-- Per-entry contribution to the `lsb2` accumulator. -/
def lsb2Contrib (config : KeyboardConfig) (L : Layout) (e : String × ℚ) : ℚ :=
  match bigramInfo L e.1 with
  | some (_, _, p1, p2) =>
    if lsbPattern p1 p2 then
      if config.Weights.LSBStrictMode = 1 then
        if lsbValid p1 p2 then 0 else e.2
      else 0
    else 0
  | none => 0

/-- Per-entry contribution to the `afi` accumulator: same half, same row,
adjacent columns, the first character strictly farther from the center. -/
def afiContrib (L : Layout) (e : String × ℚ) : ℚ :=
  match bigramInfo L e.1 with
  | some (_, _, p1, p2) =>
    if getHalf p1.2 = getHalf p2.2 ∧ p1.1 = p2.1 ∧ colDiff p1 p2 = 1 ∧
       centerDist p2.2 < centerDist p1.2 then e.2 else 0
  | none => 0

/-- Per-entry contribution to the `afo` accumulator: same half, same row,
adjacent columns, the first character strictly closer to the center. -/
def afoContrib (L : Layout) (e : String × ℚ) : ℚ :=
  match bigramInfo L e.1 with
  | some (_, _, p1, p2) =>
    if getHalf p1.2 = getHalf p2.2 ∧ p1.1 = p2.1 ∧ colDiff p1 p2 = 1 ∧
       centerDist p1.2 < centerDist p2.2 then e.2 else 0
  | none => 0

/-- Per-entry contribution to the `skb` accumulator: the two runes equal. -/
def skbContrib (L : Layout) (e : String × ℚ) : ℚ :=
  match bigramInfo L e.1 with
  | some (c1, c2, _, _) => if c1 = c2 then e.2 else 0
  | none => 0

/-- Per-entry contribution to the raw TIB accumulator: the bigram's
frequency times the coefficient of every configured override whose ordered
0-based position pair (`pos…Num - 1` in the Go code, i.e. `row*10+col`)
matches this bigram's position pair. -/
def tibContrib (config : KeyboardConfig) (L : Layout) (e : String × ℚ) : ℚ :=
  match bigramInfo L e.1 with
  | some (_, _, p1, p2) =>
    (config.BigramIndividualCoeffs.map fun co =>
      if co.Pos1 = (p1.1.val : ℤ) * 10 + p1.2.val + 1 - 1 ∧
         co.Pos2 = (p2.1.val : ℤ) * 10 + p2.2.val + 1 - 1 then e.2 * co.Coeff else 0).sum
  | none => 0

/-- `totalBigramFreq` in `calculateBigrams`. -/
def totalBigramFreq (L : Layout) (langData : LanguageData) : ℚ :=
  (langData.Bigrams.map (bigramTotalContrib L)).sum

/-- The value of an accumulator after the bigram loop of
`calculateBigrams`: the sum of its per-entry contributions. -/
def bigramSum (f : String × ℚ → ℚ) (langData : LanguageData) : ℚ :=
  (langData.Bigrams.map f).sum

/-- `calculateBigrams` from calculator.go: runs the bigram loop and then
normalizes every accumulator by the total matched bigram frequency. When
that total is not positive the percentage fields keep their zero initial
values, but TIB keeps its raw accumulated value (it is written into the
analysis during the loop and only rescaled inside the `totalBigramFreq > 0`
block). -/
def calculateBigrams (L : Layout) (config : KeyboardConfig) (langData : LanguageData) :
    BigramAnalysis :=
  let total := totalBigramFreq L langData
  if 0 < total then
    { SHB := bigramSum (shbContrib L) langData / total * 100
      SFB := bigramSum (sfbContrib L) langData / total * 100
      HVB := bigramSum (hvbContrib L) langData / total * 100
      FVB := bigramSum (fvbContrib L) langData / total * 100
      HDB := bigramSum (hdbContrib L) langData / total * 100
      FDB := bigramSum (fdbContrib L) langData / total * 100
      HFB := bigramSum (hfbContrib L) langData / total * 100
      HSB := bigramSum (hsbContrib config L) langData / total * 100
      FSB := bigramSum (fsbContrib config L) langData / total * 100
      LSB := bigramSum (lsbContrib config L) langData / total * 100
      SRB := bigramSum (srbContrib L) langData / total * 100
      AFI := bigramSum (afiContrib L) langData / total * 100
      AFO := bigramSum (afoContrib L) langData / total * 100
      HSB2 := bigramSum (hsb2Contrib config L) langData / total * 100
      FSB2 := bigramSum (fsb2Contrib config L) langData / total * 100
      LSB2 := bigramSum (lsb2Contrib config L) langData / total * 100
      SKB := bigramSum (skbContrib L) langData / total * 100
      TIB := bigramSum (tibContrib config L) langData / total * 100 }
  else
    { SHB := 0, SFB := 0, HVB := 0, FVB := 0, HDB := 0, FDB := 0, HFB := 0
      HSB := 0, FSB := 0, LSB := 0, SRB := 0, AFI := 0, AFO := 0
      HSB2 := 0, FSB2 := 0, LSB2 := 0, SKB := 0
      TIB := bigramSum (tibContrib config L) langData }

/-- `calculateFDI` from calculator.go. -/
def calculateFDI (effortByFinger : Fin 8 → ℚ) (config : KeyboardConfig) : ℚ :=
  config.Weights.D18 * |effortByFinger 0 - effortByFinger 7| +
  config.Weights.D27 * |effortByFinger 1 - effortByFinger 6| +
  config.Weights.D36 * |effortByFinger 2 - effortByFinger 5| +
  config.Weights.D45 * |effortByFinger 3 - effortByFinger 4|

/-- `calculateMEP` from calculator.go: linear overage penalties per finger
and per row, applied only when the configured maximum is positive and the
load strictly exceeds it. -/
def calculateMEP (effortByFinger : Fin 8 → ℚ) (effortByRow : Row → ℚ)
    (config : KeyboardConfig) : ℚ :=
  (Finset.univ.sum fun i : Fin 8 =>
    if 0 < config.MaxFingerEfforts i then
      if 0 < effortByFinger i - config.MaxFingerEfforts i then
        (effortByFinger i - config.MaxFingerEfforts i) * config.FingerEffortPenalties i
      else 0
    else 0) +
  (Finset.univ.sum fun r : Row =>
    if 0 < config.MaxRowEfforts r then
      if 0 < effortByRow r - config.MaxRowEfforts r then
        (effortByRow r - config.MaxRowEfforts r) * config.RowEffortPenalties r
      else 0
    else 0)

/-- `calculateWeightedScore` from calculator.go: the weighted sum of all
score terms. TIB and MEP are added without a weight factor. -/
def calculateWeightedScore (config : KeyboardConfig) (totalEffort : ℚ)
    (bi : BigramAnalysis) (hdi fdi mep : ℚ) : ℚ :=
  config.Weights.TotalEffortNorm * totalEffort +
  config.Weights.SHB * bi.SHB + config.Weights.SFB * bi.SFB +
  config.Weights.HVB * bi.HVB + config.Weights.FVB * bi.FVB +
  config.Weights.HDB * bi.HDB + config.Weights.FDB * bi.FDB +
  config.Weights.HFB * bi.HFB + config.Weights.HSB * bi.HSB +
  config.Weights.FSB * bi.FSB + config.Weights.LSB * bi.LSB +
  config.Weights.SRB * bi.SRB + config.Weights.AFI * bi.AFI +
  config.Weights.AFO * bi.AFO + bi.TIB +
  config.Weights.HDI * hdi + config.Weights.FDI * fdi + mep

/-- `AnalyzeLayout` from calculator.go: the full scoring pipeline. -/
def AnalyzeLayout (L : Layout) (config : KeyboardConfig) (langData : LanguageData) :
    LayoutAnalysis :=
  let effortByRow := calcEffortByRow L langData
  let effortByFinger := calcEffortByFinger L langData
  let effortByHalf := calcEffortByHalf L langData
  let totalEffort := calcTotalEffort L config langData
  let bi := calculateBigrams L config langData
  let hdi := |effortByHalf 0 - effortByHalf 1|
  let fdi := calculateFDI effortByFinger config
  let mep := calculateMEP effortByFinger effortByRow config
  { LayoutName := L.Name
    TotalEffort := totalEffort
    EffortByRow := effortByRow
    EffortByFinger := effortByFinger
    EffortByHalf := effortByHalf
    BigramAnalysis := bi
    HDI := hdi
    FDI := fdi
    MEP := mep
    WeightedScore := calculateWeightedScore config totalEffort bi hdi fdi mep }

/-- The global `math/rand` generator, modelled as a stream of naturals (for
`rand.Intn`) and a stream of Booleans (for the outcome of the comparison
`rand.Float64() < math.Exp(-delta/temperature)`), with a draw counter. -/
structure Rng where
  nats : ℕ → ℕ
  bits : ℕ → Bool
  k : ℕ

/-- `rand.Intn(n)`: the next natural from the stream, reduced mod `n`.
The search only calls it with `n ≥ 1`, where the result is `< n`. -/
def Rng.intn (g : Rng) (n : ℕ) : ℕ × Rng :=
  (g.nats g.k % n, { g with k := g.k + 1 })

/-- The Metropolis comparison `rand.Float64() < math.Exp(-delta/temp)`,
modelled as an oracle Boolean drawn from the stream (the annealing-loop
properties proved below hold for every outcome). -/
def Rng.acceptBit (g : Rng) : Bool × Rng :=
  (g.bits g.k, { g with k := g.k + 1 })

/-- `isUppercase` from the optimizer: whether the first rune of the key
string is an uppercase letter (`false` for the empty string). -/
def isUppercase (s : String) : Bool :=
  match s.data with
  | [] => false
  | c :: _ => c.isUpper

/-- `hasUppercaseLetters` from the optimizer: some cell of the layout holds
an uppercase key. -/
def hasUppercaseLetters (L : Layout) : Bool :=
  cells.any fun p => isUppercase (L.Keys p.1 p.2)

/-- `createLowercaseLayout` from the optimizer: the layout with every
nonempty, non-space key lowercased, paired with the matrix marking which
cells originally held an uppercase key. -/
def createLowercaseLayout (originalLayout : Layout) : Layout × (Row → Col → Bool) :=
  ({ Name := originalLayout.Name
     Keys := fun r c =>
       if originalLayout.Keys r c ≠ "" ∧ originalLayout.Keys r c ≠ " " then
         (originalLayout.Keys r c).toLower
       else originalLayout.Keys r c },
   fun r c =>
     if originalLayout.Keys r c ≠ "" ∧ originalLayout.Keys r c ≠ " " then
       isUppercase (originalLayout.Keys r c)
     else false)

/-- The simultaneous Go assignment that exchanges two key slots. -/
def swapKeys (L : Layout) (p q : Row × Col) : Layout :=
  { L with Keys := fun r c =>
      if (r, c) = p then L.Keys q.1 q.2
      else if (r, c) = q then L.Keys p.1 p.2
      else L.Keys r c }

/-- The retry loop `for idx2 == idx1 { idx2 = rand.Intn(len) }` of
`generateNeighbor`. The Go loop is unbounded; here `fuel` bounds the number
of retries and an exhausted budget returns the last draw (which can then
equal `idx1`, making the subsequent swap a no-op). Every property proved
below holds for every fuel value. -/
def pickOtherIdx (len idx1 : ℕ) : ℕ → Rng → ℕ × Rng
  | 0, g => g.intn len
  | fuel + 1, g =>
    let d := g.intn len
    if d.1 = idx1 then pickOtherIdx len idx1 fuel d.2 else d

/-- The retry loop `for idx2 == idx1 && len(swapPositions) > 1 { … }` of
`generateNeighborFromBaseLayoutWithUppercaseInfo`, bounded by fuel in the
same way as `pickOtherIdx`. -/
def pickOtherIdxGuarded (len idx1 : ℕ) : ℕ → Rng → ℕ × Rng
  | 0, g => g.intn len
  | fuel + 1, g =>
    let d := g.intn len
    if d.1 = idx1 ∧ 1 < len then pickOtherIdxGuarded len idx1 fuel d.2 else d

/-- The `swappablePositions` list built by `generateNeighbor`: with any
uppercase key present in the layout, every non-uppercase cell; otherwise
every cell free in the config mask and not uppercase. Note that empty cells
qualify in both branches. -/
def generateNeighborSwappable (L : Layout) (config : KeyboardConfig) : List (Row × Col) :=
  cells.filter fun p =>
    if hasUppercaseLetters L then ¬ isUppercase (L.Keys p.1 p.2) = true
    else config.FixedPositions p.1 p.2 = "." ∧ ¬ isUppercase (L.Keys p.1 p.2) = true

/-- `generateNeighbor` from the optimizer: swap the keys of two randomly
chosen swappable positions; a no-op when fewer than two positions are
swappable. -/
def generateNeighbor (L : Layout) (config : KeyboardConfig) (g : Rng) (fuel : ℕ) :
    Layout × Rng :=
  let swappablePositions := generateNeighborSwappable L config
  if swappablePositions.length < 2 then (L, g)
  else
    let d1 := g.intn swappablePositions.length
    let d2 := pickOtherIdx swappablePositions.length d1.1 fuel d1.2
    let pos1 := swappablePositions.getD d1.1 (0, 0)
    let pos2 := swappablePositions.getD d2.1 (0, 0)
    (swapKeys L pos1 pos2, d2.2)

/-- Whether the uppercase-position matrix marks any cell (the `hasUppercase`
scan inside `generateNeighborFromBaseLayoutWithUppercaseInfo`). -/
def hasUppercaseIn (upper : Row → Col → Bool) : Bool :=
  cells.any fun p => upper p.1 p.2

/-- The `swapPositions` list built by
`generateNeighborFromBaseLayoutWithUppercaseInfo`: when the base layout had
uppercase keys, every nonempty, non-space, non-originally-uppercase cell;
otherwise every mask-free, nonempty, non-space cell whose base key is not
uppercase. -/
def swapPositionsWithUppercaseInfo (L : Layout) (config : KeyboardConfig)
    (baseLayout : Layout) (upper : Row → Col → Bool) : List (Row × Col) :=
  cells.filter fun p =>
    if hasUppercaseIn upper then
      L.Keys p.1 p.2 ≠ "" ∧ L.Keys p.1 p.2 ≠ " " ∧ ¬ upper p.1 p.2 = true
    else
      config.FixedPositions p.1 p.2 = "." ∧ L.Keys p.1 p.2 ≠ "" ∧
      L.Keys p.1 p.2 ≠ " " ∧ ¬ isUppercase (baseLayout.Keys p.1 p.2) = true

/-- `generateNeighborFromBaseLayoutWithUppercaseInfo` from the optimizer
(the Go function also builds a `chars` slice from the base layout that it
never reads; that dead code is omitted). -/
def generateNeighborFromBaseLayoutWithUppercaseInfo (L : Layout) (config : KeyboardConfig)
    (baseLayout : Layout) (upper : Row → Col → Bool) (g : Rng) (fuel : ℕ) :
    Layout × Rng :=
  let swapPositions := swapPositionsWithUppercaseInfo L config baseLayout upper
  if swapPositions.length < 2 then (L, g)
  else
    let d1 := g.intn swapPositions.length
    let d2 := pickOtherIdxGuarded swapPositions.length d1.1 fuel d1.2
    let pos1 := swapPositions.getD d1.1 (0, 0)
    let pos2 := swapPositions.getD d2.1 (0, 0)
    (swapKeys L pos1 pos2, d2.2)

/-- `SimulatedAnnealingParams` from the optimizer. `RandomSeed` seeds the
global generator in Go; here the generator state is the explicit `Rng`
argument of the search. -/
structure SimulatedAnnealingParams where
  InitialTemp : ℚ
  CoolingRate : ℚ
  Iterations : ℕ
  Restarts : ℕ
  RandomSeed : ℤ

/-- `SimulatedAnnealingResult` from the optimizer (the `Analysis` pointer
is embedded by value). -/
structure SimulatedAnnealingResult where
  Layout : Layout
  Analysis : LayoutAnalysis
  Score : ℚ

/-- One pass of the inner loop of `sortResultsByScore` with outer index `i`:
scanning `j = i+1 …`, the accumulator `x` plays the role of the slot
`results[i]`, which is exchanged with `results[j]` whenever
`results[j].Score < results[i].Score`; the displaced value stays at `j`.
Returns the final slot value (the first minimal element) and the sequence
left at positions `i+1 …`. -/
def sortPass (x : SimulatedAnnealingResult) :
    List SimulatedAnnealingResult →
      SimulatedAnnealingResult × List SimulatedAnnealingResult
  | [] => (x, [])
  | y :: ys =>
    if y.Score < x.Score then
      let p := sortPass y ys
      (p.1, x :: p.2)
    else
      let p := sortPass x ys
      (p.1, y :: p.2)

/-- The outer loop of `sortResultsByScore`, structurally recursive on a
fuel argument; each pass preserves the length of the remainder, so with
fuel equal to the list length (as `sortResultsByScore` supplies) the
zero-fuel case is reached exactly when the list is exhausted. -/
def sortResultsAux : ℕ → List SimulatedAnnealingResult → List SimulatedAnnealingResult
  | 0, l => l
  | _ + 1, [] => []
  | fuel + 1, x :: xs => (sortPass x xs).1 :: sortResultsAux fuel (sortPass x xs).2

/-- `sortResultsByScore` from the optimizer: the double-loop exchange sort
(`for i … for j > i … swap if results[j].Score < results[i].Score`),
rendered by its per-outer-iteration passes. -/
def sortResultsByScore (l : List SimulatedAnnealingResult) :
    List SimulatedAnnealingResult :=
  sortResultsAux l.length l

/-- The truncation `bestResults = bestResults[:numBest]` guarded by
`numBest > 0 && len(bestResults) > numBest`. -/
def truncateResults (numBest : ℤ) (l : List SimulatedAnnealingResult) :
    List SimulatedAnnealingResult :=
  if 0 < numBest ∧ numBest < (l.length : ℤ) then l.take numBest.toNat else l

/-- The per-restart annealing state of
`SearchOptimalLayoutFromSpecificLayout`. -/
structure SAState where
  cur : Layout
  curA : LayoutAnalysis
  curS : ℚ
  bestL : Layout
  bestA : LayoutAnalysis
  bestS : ℚ
  temp : ℚ
  rng : Rng

/-- One iteration of the annealing loop of
`SearchOptimalLayoutFromSpecificLayout`: generate a neighbor, score it,
accept unconditionally on improvement and otherwise by the Metropolis
draw, track the restart's best, cool the temperature. -/
def annealStep (config : KeyboardConfig) (langData : LanguageData)
    (params : SimulatedAnnealingParams) (base : Layout) (upper : Row → Col → Bool)
    (fuel : ℕ) (st : SAState) : SAState :=
  let d := generateNeighborFromBaseLayoutWithUppercaseInfo st.cur config base upper st.rng fuel
  let neighborAnalysis := AnalyzeLayout d.1 config langData
  let neighborScore := neighborAnalysis.WeightedScore
  let delta := neighborScore - st.curS
  let acc : Bool × Rng := if delta < 0 then (true, d.2) else d.2.acceptBit
  let st1 :=
    if acc.1 then
      if neighborScore < st.bestS then
        { st with cur := d.1, curA := neighborAnalysis, curS := neighborScore,
                  bestL := d.1, bestA := neighborAnalysis, bestS := neighborScore }
      else
        { st with cur := d.1, curA := neighborAnalysis, curS := neighborScore }
    else st
  { st1 with temp := st.temp * params.CoolingRate, rng := acc.2 }

/-- The choice of working layout at the top of a restart: restart 0 starts
from the lowercased seed; later restarts resume from `bestResults[0]` (or
the lowercased seed while no result exists yet). -/
def restartStartLayout (low : Layout) (ridx : ℕ)
    (acc : List SimulatedAnnealingResult) : Layout :=
  if 0 < ridx then (match acc with | [] => low | a :: _ => a.Layout) else low

/-- The initial annealing state of a restart started at layout `cl`. -/
def restartInitState (config : KeyboardConfig) (langData : LanguageData)
    (params : SimulatedAnnealingParams) (cl : Layout) (g : Rng) : SAState :=
  { cur := cl, curA := AnalyzeLayout cl config langData
    curS := (AnalyzeLayout cl config langData).WeightedScore
    bestL := cl, bestA := AnalyzeLayout cl config langData
    bestS := (AnalyzeLayout cl config langData).WeightedScore
    temp := params.InitialTemp, rng := g }

/-- One full restart: `Iterations` annealing steps from the initial state. -/
def annealRestart (config : KeyboardConfig) (langData : LanguageData)
    (params : SimulatedAnnealingParams) (base : Layout) (upper : Row → Col → Bool)
    (fuel : ℕ) (cl : Layout) (g : Rng) : SAState :=
  (annealStep config langData params base upper fuel)^[params.Iterations]
    (restartInitState config langData params cl g)

/-- The restart loop of `SearchOptimalLayoutFromSpecificLayout`: restart 0
starts from the lowercased seed; later restarts resume from
`bestResults[0]` (or the lowercased seed while no result exists); after
each restart the accumulated results are sorted and truncated. -/
def searchRestartLoop (config : KeyboardConfig) (langData : LanguageData)
    (params : SimulatedAnnealingParams) (numBest : ℤ) (fuel : ℕ)
    (low : Layout) (upper : Row → Col → Bool) :
    ℕ → ℕ → List SimulatedAnnealingResult → Rng →
      List SimulatedAnnealingResult × Rng
  | 0, _, acc, g => (acc, g)
  | n + 1, ridx, acc, g =>
    let stN := annealRestart config langData params low upper fuel
      (restartStartLayout low ridx acc) g
    let res : SimulatedAnnealingResult :=
      { Layout := stN.bestL, Analysis := stN.bestA, Score := stN.bestS }
    let acc2 := truncateResults numBest (sortResultsByScore (acc ++ [res]))
    searchRestartLoop config langData params numBest fuel low upper n (ridx + 1) acc2 stN.rng

/-- `SearchOptimalLayoutFromSpecificLayout` from the optimizer: lowercase
the seed (recording its uppercase positions as locks), run the restarts,
and truncate the final result list. The Go parameter `layouts` is never
read by the function body and is omitted. -/
def SearchOptimalLayoutFromSpecificLayout (config : KeyboardConfig)
    (langData : LanguageData) (params : SimulatedAnnealingParams) (numBest : ℤ)
    (startLayout : Layout) (g : Rng) (fuel : ℕ) : List SimulatedAnnealingResult :=
  let low := (createLowercaseLayout startLayout).1
  let upper := (createLowercaseLayout startLayout).2
  truncateResults numBest
    (searchRestartLoop config langData params numBest fuel low upper
      params.Restarts 0 [] g).1

/-- A weight vector with every coefficient zero (and non-strict modes). -/
def zeroWeights : WeightConfig :=
  { SHB := 0, SFB := 0, HVB := 0, FVB := 0, HDB := 0, FDB := 0, HFB := 0
    HSB := 0, FSB := 0, LSB := 0, SRB := 0, AFI := 0, AFO := 0
    HDI := 0, FDI := 0, D18 := 0, D27 := 0, D36 := 0, D45 := 0
    HSBStrictMode := 0, FSBStrictMode := 0, LSBStrictMode := 0
    TotalEffortNorm := 0 }

/-- A cost model with uniform unit effort, every position free (`"."`),
no capacity limits, zero weights and no overrides. -/
def freeConfig : KeyboardConfig :=
  { EffortMatrix := fun _ _ => 1
    FixedPositions := fun _ _ => "."
    MaxFingerEfforts := fun _ => 0
    FingerEffortPenalties := fun _ => 0
    MaxRowEfforts := fun _ => 0
    RowEffortPenalties := fun _ => 0
    Weights := zeroWeights
    BigramIndividualCoeffs := [] }

/-- `freeConfig` with all three strict-mode flags set. -/
def strictConfig : KeyboardConfig :=
  { freeConfig with
    Weights := { zeroWeights with
                 HSBStrictMode := 1, FSBStrictMode := 1, LSBStrictMode := 1 } }

/-- `freeConfig` with one bigram override: cell 0 (row 0, col 0) followed by
cell 13 (row 1, col 3), coefficient 2. -/
def tibConfig : KeyboardConfig :=
  { freeConfig with BigramIndividualCoeffs := [{ Pos1 := 0, Pos2 := 13, Coeff := 2 }] }

/-- A layout with `a` at (0,0) and `b` at (1,3), all other slots empty. -/
def layoutAB : Layout :=
  { Name := "ab"
    Keys := fun r c =>
      if r = 0 ∧ c = 0 then "a" else if r = 1 ∧ c = 3 then "b" else "" }

/-- A corpus over `layoutAB`: characters a (0.6) and b (0.4), one bigram
`ab` with frequency 1. -/
def langAB : LanguageData :=
  { Language := "test", Characters := [("a", 6 / 10), ("b", 4 / 10)], Bigrams := [("ab", 1)] }

/-- A seed layout whose (0,0) key is the uppercase letter `A` (a
seed-specific lock), with lowercase `b`, `c` elsewhere on the top row. -/
def seedUpper : Layout :=
  { Name := "seed"
    Keys := fun r c =>
      if r = 0 ∧ c = 0 then "A"
      else if r = 0 ∧ c = 1 then "b"
      else if r = 0 ∧ c = 2 then "c" else "" }

/-- A layout holding the single character `a` at (0,0). -/
def layoutSingleA : Layout :=
  { Name := "one", Keys := fun r c => if r = 0 ∧ c = 0 then "a" else "" }

/-- A concrete generator stream: the identity stream of naturals and the
all-false Boolean stream. -/
def exRng : Rng := { nats := fun n => n, bits := fun _ => false, k := 0 }

/-- Search parameters with zero annealing iterations and one restart. -/
def exParamsZeroIter : SimulatedAnnealingParams :=
  { InitialTemp := 1000, CoolingRate := 995 / 1000, Iterations := 0, Restarts := 1, RandomSeed := 1 }

/-- The lock predicate actually enforced by
`generateNeighborFromBaseLayoutWithUppercaseInfo`, relative to an
uppercase-position matrix: with any marked cell, the marked cells are
locked; otherwise the cells not free (`≠ "."`) in the config mask are. -/
def lockedU (config : KeyboardConfig) (upper : Row → Col → Bool) (r : Row) (c : Col) : Prop :=
  if hasUppercaseIn upper then upper r c = true else config.FixedPositions r c ≠ "."

instance (config : KeyboardConfig) (upper : Row → Col → Bool) (r : Row) (c : Col) :
    Decidable (lockedU config upper r c) := by
  unfold lockedU; infer_instance

/-- The resolved lock set in the spec's terms: when the seed layout
contains any uppercase letter its uppercase positions are the locks,
otherwise the cost model's non-`"."` mask positions are. -/
def lockedResolved (config : KeyboardConfig) (seed : Layout) (r : Row) (c : Col) : Prop :=
  if hasUppercaseLetters seed then isUppercase (seed.Keys r c) = true
  else config.FixedPositions r c ≠ "."

instance (config : KeyboardConfig) (seed : Layout) (r : Row) (c : Col) :
    Decidable (lockedResolved config seed r c) := by
  unfold lockedResolved; infer_instance

/-- Eligibility in the spec's sense relative to an uppercase matrix:
unlocked and holding a proper (nonempty, non-space) character. -/
def eligibleUnlocked (config : KeyboardConfig) (upper : Row → Col → Bool)
    (L : Layout) (r : Row) (c : Col) : Prop :=
  L.Keys r c ≠ "" ∧ L.Keys r c ≠ " " ∧ ¬ lockedU config upper r c

instance (config : KeyboardConfig) (upper : Row → Col → Bool) (L : Layout)
    (r : Row) (c : Col) : Decidable (eligibleUnlocked config upper L r c) := by
  unfold eligibleUnlocked; infer_instance

/-- The number of eligible cells in the `eligibleUnlocked` sense. -/
def eligibleUnlockedCount (config : KeyboardConfig) (upper : Row → Col → Bool)
    (L : Layout) : ℕ :=
  (cells.filter fun p => eligibleUnlocked config upper L p.1 p.2).length

/-- Eligibility as worded by the spec for a bare layout (no separate
uppercase matrix): unlocked under the resolved lock rule and nonempty. -/
def eligiblePos (config : KeyboardConfig) (L : Layout) (r : Row) (c : Col) : Prop :=
  ¬ lockedResolved config L r c ∧ L.Keys r c ≠ ""

instance (config : KeyboardConfig) (L : Layout) (r : Row) (c : Col) :
    Decidable (eligiblePos config L r c) := by
  unfold eligiblePos; infer_instance

/-- The number of eligible cells in the `eligiblePos` sense. -/
def eligibleCount (config : KeyboardConfig) (L : Layout) : ℕ :=
  (cells.filter fun p => eligiblePos config L p.1 p.2).length

/-- The finger of the lower-positioned (larger row index) of two cells,
following the `lowerRow` computation of the HSB branch. -/
def lowerPosFinger (p1 p2 : Row × Col) : ℕ :=
  if p1.1.val < p2.1.val then getFingerForKey p2.1 p2.2 else getFingerForKey p1.1 p1.2

/-- The finger of the bottom-row (row index 2) cell of an FSB pair. -/
def bottomRowFinger (p1 p2 : Row × Col) : ℕ :=
  if p1.1.val = 2 then getFingerForKey p1.1 p1.2 else getFingerForKey p2.1 p2.2

/-- Modelled from the spec: the four "stretch" fingers as the claim words
them, "the index or ring finger of either hand" — in the topology's finger
numbering the ring fingers are 1 and 6 and the index fingers are 3 and 4. -/
def specStretchFinger (f : ℕ) : Prop :=
  f = 1 ∨ f = 3 ∨ f = 4 ∨ f = 6

instance (f : ℕ) : Decidable (specStretchFinger f) := by
  unfold specStretchFinger; infer_instance

/-- The ascending-score ordering on search results. -/
def scoreLE (a b : SimulatedAnnealingResult) : Prop :=
  a.Score ≤ b.Score

instance (a b : SimulatedAnnealingResult) : Decidable (scoreLE a b) := by
  unfold scoreLE; infer_instance

/-- `config` with only the HSB strict-mode flag replaced. -/
def setHSBStrictMode (config : KeyboardConfig) (v : ℤ) : KeyboardConfig :=
  { config with Weights := { config.Weights with HSBStrictMode := v } }

/-- `config` with only the FSB strict-mode flag replaced. -/
def setFSBStrictMode (config : KeyboardConfig) (v : ℤ) : KeyboardConfig :=
  { config with Weights := { config.Weights with FSBStrictMode := v } }

/-- `config` with only the LSB strict-mode flag replaced. -/
def setLSBStrictMode (config : KeyboardConfig) (v : ℤ) : KeyboardConfig :=
  { config with Weights := { config.Weights with LSBStrictMode := v } }

/-- C1 as stated: with positive total matched bigram frequency, the TIB
field equals the raw override sum `Σ freq * coeff`, and that raw sum is
what enters the weighted score additively. -/
def C1Claim : Prop :=
  ∀ (L : Layout) (config : KeyboardConfig) (langData : LanguageData),
    0 < totalBigramFreq L langData →
    (AnalyzeLayout L config langData).BigramAnalysis.TIB =
      bigramSum (tibContrib config L) langData ∧
    (AnalyzeLayout L config langData).WeightedScore =
      (AnalyzeLayout L { config with BigramIndividualCoeffs := [] } langData).WeightedScore +
        bigramSum (tibContrib config L) langData

/-- C2 as stated: in strict mode, a bigram matching the HSB (resp. FSB)
geometry is counted in the primary bucket exactly when the finger of its
lower-positioned (resp. bottom-row) character is one of the claim's four
stretch fingers (index or ring), and goes to the secondary bucket
otherwise. -/
def C2Claim : Prop :=
  ∀ (config : KeyboardConfig) (L : Layout) (e : String × ℚ)
    (c1 c2 : Char) (p1 p2 : Row × Col),
    bigramInfo L e.1 = some (c1, c2, p1, p2) →
    (config.Weights.HSBStrictMode = 1 → hsbPattern p1 p2 →
      hsbContrib config L e = (if specStretchFinger (lowerPosFinger p1 p2) then e.2 else 0) ∧
      hsb2Contrib config L e = (if specStretchFinger (lowerPosFinger p1 p2) then 0 else e.2)) ∧
    (config.Weights.FSBStrictMode = 1 → fsbPattern p1 p2 →
      fsbContrib config L e = (if specStretchFinger (bottomRowFinger p1 p2) then e.2 else 0) ∧
      fsb2Contrib config L e = (if specStretchFinger (bottomRowFinger p1 p2) then 0 else e.2))

/-- C3 as stated (the sorting component): the optimizer's ranking sort is
an ascending stable sort by score. An ascending stable sort is the unique
function that sorts by `scoreLE` while keeping equal-score elements in
input order, namely insertion sort with that relation. -/
def C3Claim : Prop :=
  ∀ l : List SimulatedAnnealingResult,
    sortResultsByScore l = List.insertionSort scoreLE l

/-- C4 as stated: with zero iterations, every returned result carries the
seed layout itself and the seed's analysis score. -/
def C4Claim : Prop :=
  ∀ (config : KeyboardConfig) (langData : LanguageData)
    (params : SimulatedAnnealingParams) (numBest : ℤ) (startLayout : Layout)
    (g : Rng) (fuel : ℕ), params.Iterations = 0 →
    ∀ (i : ℕ) (hi : i < (SearchOptimalLayoutFromSpecificLayout config langData params
        numBest startLayout g fuel).length),
      ((SearchOptimalLayoutFromSpecificLayout config langData params numBest startLayout
          g fuel).get ⟨i, hi⟩).Layout = startLayout ∧
      ((SearchOptimalLayoutFromSpecificLayout config langData params numBest startLayout
          g fuel).get ⟨i, hi⟩).Score =
        (AnalyzeLayout startLayout config langData).WeightedScore

/-- C5 as stated: at every position locked by the resolved lock set, every
returned result carries the same character as the seed layout. -/
def C5Claim : Prop :=
  ∀ (config : KeyboardConfig) (langData : LanguageData)
    (params : SimulatedAnnealingParams) (numBest : ℤ) (startLayout : Layout)
    (g : Rng) (fuel : ℕ)
    (i : ℕ) (hi : i < (SearchOptimalLayoutFromSpecificLayout config langData params
        numBest startLayout g fuel).length)
    (r : Row) (c : Col), lockedResolved config startLayout r c →
      ((SearchOptimalLayoutFromSpecificLayout config langData params numBest startLayout
          g fuel).get ⟨i, hi⟩).Layout.Keys r c = startLayout.Keys r c

/-- C6 as stated, for `generateNeighbor`: with fewer than two eligible
(unlocked, nonempty) positions the neighbor equals the input, and a swap
only ever changes eligible positions. -/
def C6Claim : Prop :=
  ∀ (L : Layout) (config : KeyboardConfig) (g : Rng) (fuel : ℕ),
    (eligibleCount config L < 2 → (generateNeighbor L config g fuel).1 = L) ∧
    (∀ (r : Row) (c : Col),
      (generateNeighbor L config g fuel).1.Keys r c ≠ L.Keys r c →
      eligiblePos config L r c)

/-- A layout with `a` at (0,0) and `b` at (0,1) (same row, adjacent
columns, both on the left half). -/
def layoutRowAB : Layout :=
  { Name := "rowab"
    Keys := fun r c =>
      if r = 0 ∧ c = 0 then "a" else if r = 0 ∧ c = 1 then "b" else "" }

/-- A corpus with the single bigram `ab`. -/
def langRow : LanguageData :=
  { Language := "row", Characters := [("a", 1), ("b", 1)], Bigrams := [("ab", 1)] }

/-- A layout with every slot empty. -/
def emptyLayout : Layout :=
  { Name := "empty", Keys := fun _ _ => "" }

/-- The all-unmarked uppercase-position matrix. -/
def falseUpper : Row → Col → Bool := fun _ _ => false

/-- The all-zero bigram analysis. -/
def zeroBigram : BigramAnalysis :=
  { SHB := 0, SFB := 0, HVB := 0, FVB := 0, HDB := 0, FDB := 0, HFB := 0
    HSB := 0, FSB := 0, LSB := 0, SRB := 0, AFI := 0, AFO := 0
    HSB2 := 0, FSB2 := 0, LSB2 := 0, SKB := 0, TIB := 0 }

/-- A placeholder analysis for hand-built result records. -/
def dummyAnalysis : LayoutAnalysis :=
  { LayoutName := "", TotalEffort := 0, EffortByRow := fun _ => 0
    EffortByFinger := fun _ => 0, EffortByHalf := fun _ => 0
    BigramAnalysis := zeroBigram, HDI := 0, FDI := 0, MEP := 0, WeightedScore := 0 }

/-- A result named A with score 2. -/
def resA : SimulatedAnnealingResult :=
  { Layout := { Name := "A", Keys := fun _ _ => "" }, Analysis := dummyAnalysis, Score := 2 }

/-- A result named B with score 2. -/
def resB : SimulatedAnnealingResult :=
  { Layout := { Name := "B", Keys := fun _ _ => "" }, Analysis := dummyAnalysis, Score := 2 }

/-- A result named C with score 1. -/
def resC : SimulatedAnnealingResult :=
  { Layout := { Name := "C", Keys := fun _ _ => "" }, Analysis := dummyAnalysis, Score := 1 }

/-- The concrete zero-iteration search run from the uppercase seed used in
the examples below. -/
def exSearchUpper : List SimulatedAnnealingResult :=
  SearchOptimalLayoutFromSpecificLayout freeConfig langAB exParamsZeroIter 0 seedUpper exRng 100

/-- The corpus with empty character and bigram tables. -/
def emptyLang (name : String) : LanguageData :=
  { Language := name, Characters := [], Bigrams := [] }

theorem AnalyzeLayout_TotalEffort (L : Layout) (config : KeyboardConfig)
    (langData : LanguageData) :
    (AnalyzeLayout L config langData).TotalEffort = calcTotalEffort L config langData := rfl

theorem AnalyzeLayout_EffortByRow (L : Layout) (config : KeyboardConfig)
    (langData : LanguageData) :
    (AnalyzeLayout L config langData).EffortByRow = calcEffortByRow L langData := rfl

theorem AnalyzeLayout_EffortByFinger (L : Layout) (config : KeyboardConfig)
    (langData : LanguageData) :
    (AnalyzeLayout L config langData).EffortByFinger = calcEffortByFinger L langData := rfl

theorem AnalyzeLayout_EffortByHalf (L : Layout) (config : KeyboardConfig)
    (langData : LanguageData) :
    (AnalyzeLayout L config langData).EffortByHalf = calcEffortByHalf L langData := rfl

theorem AnalyzeLayout_BigramAnalysis (L : Layout) (config : KeyboardConfig)
    (langData : LanguageData) :
    (AnalyzeLayout L config langData).BigramAnalysis = calculateBigrams L config langData := rfl

theorem AnalyzeLayout_HDI (L : Layout) (config : KeyboardConfig) (langData : LanguageData) :
    (AnalyzeLayout L config langData).HDI =
      |calcEffortByHalf L langData 0 - calcEffortByHalf L langData 1| := rfl

theorem AnalyzeLayout_FDI (L : Layout) (config : KeyboardConfig) (langData : LanguageData) :
    (AnalyzeLayout L config langData).FDI =
      calculateFDI (calcEffortByFinger L langData) config := rfl

theorem AnalyzeLayout_MEP (L : Layout) (config : KeyboardConfig) (langData : LanguageData) :
    (AnalyzeLayout L config langData).MEP =
      calculateMEP (calcEffortByFinger L langData) (calcEffortByRow L langData) config := rfl

theorem AnalyzeLayout_WeightedScore (L : Layout) (config : KeyboardConfig)
    (langData : LanguageData) :
    (AnalyzeLayout L config langData).WeightedScore =
      calculateWeightedScore config (calcTotalEffort L config langData)
        (calculateBigrams L config langData)
        (|calcEffortByHalf L langData 0 - calcEffortByHalf L langData 1|)
        (calculateFDI (calcEffortByFinger L langData) config)
        (calculateMEP (calcEffortByFinger L langData) (calcEffortByRow L langData) config) := rfl

theorem getFingerForKey_lt : ∀ (r : Row) (c : Col), getFingerForKey r c < 8 := by decide

theorem getHalf_lt : ∀ c : Col, getHalf c < 2 := by decide

theorem sum_rowFreq (L : Layout) (langData : LanguageData) :
    (Finset.univ.sum fun r : Row => rowFreq L langData r) = totalFreq L langData := by
  unfold rowFreq totalFreq
  induction langData.Characters with
  | nil => simp
  | cons e l ih =>
    simp only [List.map_cons, List.sum_cons]
    rw [Finset.sum_add_distrib, ih]
    congr 1
    rcases hk : keyPos L e.1 with _ | p
    · simp [charFreqContrib, hk]
    · simp only [charFreqContrib, hk]
      rw [Finset.sum_ite_eq]
      simp

theorem sum_fingerFreq (L : Layout) (langData : LanguageData) :
    (Finset.univ.sum fun i : Fin 8 => fingerFreq L langData i) = totalFreq L langData := by
  unfold fingerFreq totalFreq
  induction langData.Characters with
  | nil => simp
  | cons e l ih =>
    simp only [List.map_cons, List.sum_cons]
    rw [Finset.sum_add_distrib, ih]
    congr 1
    rcases hk : keyPos L e.1 with _ | p
    · simp [charFreqContrib, hk]
    · have hf := getFingerForKey_lt p.1 p.2
      have hc : ∀ i : Fin 8,
          (getFingerForKey p.1 p.2 = i.val) ↔ ((⟨getFingerForKey p.1 p.2, hf⟩ : Fin 8) = i) := by
        intro i
        rw [Fin.ext_iff]
      simp only [charFreqContrib, hk, hc]
      rw [Finset.sum_ite_eq]
      simp

theorem sum_halfFreq (L : Layout) (langData : LanguageData) :
    (Finset.univ.sum fun h : Fin 2 => halfFreq L langData h) = totalFreq L langData := by
  unfold halfFreq totalFreq
  induction langData.Characters with
  | nil => simp
  | cons e l ih =>
    simp only [List.map_cons, List.sum_cons]
    rw [Finset.sum_add_distrib, ih]
    congr 1
    rcases hk : keyPos L e.1 with _ | p
    · simp [charFreqContrib, hk]
    · have hf := getHalf_lt p.2
      have hc : ∀ h : Fin 2,
          (getHalf p.2 = h.val) ↔ ((⟨getHalf p.2, hf⟩ : Fin 2) = h) := by
        intro h
        rw [Fin.ext_iff]
      simp only [charFreqContrib, hk, hc]
      rw [Finset.sum_ite_eq]
      simp

/-- C7: with positive total matched character frequency, the three row-load
percentages of `Analyze` sum to exactly 100, the eight finger-load
percentages sum to exactly 100, and the two half-load percentages sum to
exactly 100 (exact equality implies the claim's ±1e-6 tolerance). -/
theorem C7_percentages_sum (L : Layout) (config : KeyboardConfig) (langData : LanguageData)
    (h : 0 < totalFreq L langData) :
    (Finset.univ.sum fun r : Row => (AnalyzeLayout L config langData).EffortByRow r) = 100 ∧
    (Finset.univ.sum fun i : Fin 8 => (AnalyzeLayout L config langData).EffortByFinger i) = 100 ∧
    (Finset.univ.sum fun h2 : Fin 2 => (AnalyzeLayout L config langData).EffortByHalf h2) = 100 := by
  have hT : totalFreq L langData ≠ 0 := ne_of_gt h
  refine ⟨?_, ?_, ?_⟩
  · rw [AnalyzeLayout_EffortByRow]
    unfold calcEffortByRow
    simp only [if_pos h, div_mul_eq_mul_div]
    rw [← Finset.sum_div, ← Finset.sum_mul, sum_rowFreq, mul_comm, mul_div_assoc,
      div_self hT, mul_one]
  · rw [AnalyzeLayout_EffortByFinger]
    unfold calcEffortByFinger
    simp only [if_pos h, div_mul_eq_mul_div]
    rw [← Finset.sum_div, ← Finset.sum_mul, sum_fingerFreq, mul_comm, mul_div_assoc,
      div_self hT, mul_one]
  · rw [AnalyzeLayout_EffortByHalf]
    unfold calcEffortByHalf
    simp only [if_pos h, div_mul_eq_mul_div]
    rw [← Finset.sum_div, ← Finset.sum_mul, sum_halfFreq, mul_comm, mul_div_assoc,
      div_self hT, mul_one]

/-- C7 witness: on the concrete two-character corpus the hypothesis holds
and the three row percentages sum to 100. -/
theorem C7_witness :
    0 < totalFreq layoutAB langAB ∧
    (Finset.univ.sum fun r : Row => (AnalyzeLayout layoutAB freeConfig langAB).EffortByRow r)
      = 100 := by
  have h : 0 < totalFreq layoutAB langAB := by with_unfolding_all exact of_decide_eq_true rfl
  exact ⟨h, (C7_percentages_sum layoutAB freeConfig langAB h).1⟩

/-- C9: on a corpus with empty character and bigram tables, every numeric
output of `Analyze` — total effort, all row/finger/half percentages, every
bigram-class value (including TIB), HDI, FDI, MEP and the weighted score —
is zero; the embedded function is total, so no error is possible. -/
theorem C9_empty_corpus (L : Layout) (config : KeyboardConfig) (name : String) :
    (AnalyzeLayout L config (emptyLang name)).TotalEffort = 0 ∧
    (∀ r : Row, (AnalyzeLayout L config (emptyLang name)).EffortByRow r = 0) ∧
    (∀ i : Fin 8, (AnalyzeLayout L config (emptyLang name)).EffortByFinger i = 0) ∧
    (∀ h2 : Fin 2, (AnalyzeLayout L config (emptyLang name)).EffortByHalf h2 = 0) ∧
    (AnalyzeLayout L config (emptyLang name)).BigramAnalysis = zeroBigram ∧
    (AnalyzeLayout L config (emptyLang name)).HDI = 0 ∧
    (AnalyzeLayout L config (emptyLang name)).FDI = 0 ∧
    (AnalyzeLayout L config (emptyLang name)).MEP = 0 ∧
    (AnalyzeLayout L config (emptyLang name)).WeightedScore = 0 := by
  have hT : totalFreq L (emptyLang name) = 0 := by simp [totalFreq, emptyLang]
  have hnot : ¬ 0 < totalFreq L (emptyLang name) := by rw [hT]; exact lt_irrefl 0
  have hTB : totalBigramFreq L (emptyLang name) = 0 := by
    simp [totalBigramFreq, emptyLang]
  have hTot : calcTotalEffort L config (emptyLang name) = 0 := by
    unfold calcTotalEffort; rw [if_neg hnot]
  have hRow : ∀ r : Row, calcEffortByRow L (emptyLang name) r = 0 := fun r => by
    unfold calcEffortByRow; rw [if_neg hnot]
  have hFin : ∀ i : Fin 8, calcEffortByFinger L (emptyLang name) i = 0 := fun i => by
    unfold calcEffortByFinger; rw [if_neg hnot]
  have hHalf : ∀ h2 : Fin 2, calcEffortByHalf L (emptyLang name) h2 = 0 := fun h2 => by
    unfold calcEffortByHalf; rw [if_neg hnot]
  have hBig : calculateBigrams L config (emptyLang name) = zeroBigram := by
    simp only [calculateBigrams, hTB]
    rw [if_neg (lt_irrefl (0 : ℚ))]
    simp [zeroBigram, bigramSum, emptyLang]
  have hFDI : calculateFDI (calcEffortByFinger L (emptyLang name)) config = 0 := by
    unfold calculateFDI
    simp [hFin]
  have hMEP : calculateMEP (calcEffortByFinger L (emptyLang name))
      (calcEffortByRow L (emptyLang name)) config = 0 := by
    unfold calculateMEP
    have h1 : (Finset.univ.sum fun i : Fin 8 =>
        if 0 < config.MaxFingerEfforts i then
          if 0 < calcEffortByFinger L (emptyLang name) i - config.MaxFingerEfforts i then
            (calcEffortByFinger L (emptyLang name) i - config.MaxFingerEfforts i) *
              config.FingerEffortPenalties i
          else 0
        else 0) = 0 := by
      refine Finset.sum_eq_zero fun i _ => ?_
      rw [hFin i]
      split_ifs with ha hb
      · linarith
      · rfl
      · rfl
    have h2 : (Finset.univ.sum fun r : Row =>
        if 0 < config.MaxRowEfforts r then
          if 0 < calcEffortByRow L (emptyLang name) r - config.MaxRowEfforts r then
            (calcEffortByRow L (emptyLang name) r - config.MaxRowEfforts r) *
              config.RowEffortPenalties r
          else 0
        else 0) = 0 := by
      refine Finset.sum_eq_zero fun r _ => ?_
      rw [hRow r]
      split_ifs with ha hb
      · linarith
      · rfl
      · rfl
    rw [h1, h2, add_zero]
  refine ⟨?_, ?_, ?_, ?_, ?_, ?_, ?_, ?_, ?_⟩
  · rw [AnalyzeLayout_TotalEffort, hTot]
  · intro r; rw [AnalyzeLayout_EffortByRow, hRow r]
  · intro i; rw [AnalyzeLayout_EffortByFinger, hFin i]
  · intro h2; rw [AnalyzeLayout_EffortByHalf, hHalf h2]
  · rw [AnalyzeLayout_BigramAnalysis, hBig]
  · rw [AnalyzeLayout_HDI, hHalf 0, hHalf 1]
    simp
  · rw [AnalyzeLayout_FDI, hFDI]
  · rw [AnalyzeLayout_MEP, hMEP]
  · rw [AnalyzeLayout_WeightedScore, hTot, hBig, hFDI, hMEP, hHalf 0, hHalf 1]
    unfold calculateWeightedScore
    simp [zeroBigram]

theorem hsb_pair_sum (cfg1 cfg2 : KeyboardConfig) (L : Layout) (e : String × ℚ) :
    hsbContrib cfg1 L e + hsb2Contrib cfg1 L e =
    hsbContrib cfg2 L e + hsb2Contrib cfg2 L e := by
  rcases hb : bigramInfo L e.1 with _ | ⟨ch1, ch2, p1, p2⟩ <;>
    simp only [hsbContrib, hsb2Contrib, hb] <;> split_ifs <;> ring

theorem fsb_pair_sum (cfg1 cfg2 : KeyboardConfig) (L : Layout) (e : String × ℚ) :
    fsbContrib cfg1 L e + fsb2Contrib cfg1 L e =
    fsbContrib cfg2 L e + fsb2Contrib cfg2 L e := by
  rcases hb : bigramInfo L e.1 with _ | ⟨ch1, ch2, p1, p2⟩ <;>
    simp only [fsbContrib, fsb2Contrib, hb] <;> split_ifs <;> ring

theorem lsb_pair_sum (cfg1 cfg2 : KeyboardConfig) (L : Layout) (e : String × ℚ) :
    lsbContrib cfg1 L e + lsb2Contrib cfg1 L e =
    lsbContrib cfg2 L e + lsb2Contrib cfg2 L e := by
  rcases hb : bigramInfo L e.1 with _ | ⟨ch1, ch2, p1, p2⟩ <;>
    simp only [lsbContrib, lsb2Contrib, hb] <;> split_ifs <;> ring

theorem bigramSum_add_pair (f g f' g' : String × ℚ → ℚ) (langData : LanguageData)
    (h : ∀ e, f e + g e = f' e + g' e) :
    bigramSum f langData + bigramSum g langData =
    bigramSum f' langData + bigramSum g' langData := by
  unfold bigramSum
  induction langData.Bigrams with
  | nil => simp
  | cons e l ih =>
    simp only [List.map_cons, List.sum_cons]
    have := h e
    linarith

theorem HSB_pair_config_indep (cfg1 cfg2 : KeyboardConfig) (L : Layout)
    (langData : LanguageData) :
    (AnalyzeLayout L cfg1 langData).BigramAnalysis.HSB +
      (AnalyzeLayout L cfg1 langData).BigramAnalysis.HSB2 =
    (AnalyzeLayout L cfg2 langData).BigramAnalysis.HSB +
      (AnalyzeLayout L cfg2 langData).BigramAnalysis.HSB2 := by
  rw [AnalyzeLayout_BigramAnalysis, AnalyzeLayout_BigramAnalysis]
  by_cases ht : 0 < totalBigramFreq L langData
  · simp only [calculateBigrams, if_pos ht]
    have key := bigramSum_add_pair _ _ _ _ langData (hsb_pair_sum cfg1 cfg2 L)
    have hx : ∀ x y : ℚ,
        x / totalBigramFreq L langData * 100 + y / totalBigramFreq L langData * 100 =
        (x + y) * (100 / totalBigramFreq L langData) := fun x y => by ring
    rw [hx, hx, key]
  · simp only [calculateBigrams, if_neg ht]

theorem FSB_pair_config_indep (cfg1 cfg2 : KeyboardConfig) (L : Layout)
    (langData : LanguageData) :
    (AnalyzeLayout L cfg1 langData).BigramAnalysis.FSB +
      (AnalyzeLayout L cfg1 langData).BigramAnalysis.FSB2 =
    (AnalyzeLayout L cfg2 langData).BigramAnalysis.FSB +
      (AnalyzeLayout L cfg2 langData).BigramAnalysis.FSB2 := by
  rw [AnalyzeLayout_BigramAnalysis, AnalyzeLayout_BigramAnalysis]
  by_cases ht : 0 < totalBigramFreq L langData
  · simp only [calculateBigrams, if_pos ht]
    have key := bigramSum_add_pair _ _ _ _ langData (fsb_pair_sum cfg1 cfg2 L)
    have hx : ∀ x y : ℚ,
        x / totalBigramFreq L langData * 100 + y / totalBigramFreq L langData * 100 =
        (x + y) * (100 / totalBigramFreq L langData) := fun x y => by ring
    rw [hx, hx, key]
  · simp only [calculateBigrams, if_neg ht]

theorem LSB_pair_config_indep (cfg1 cfg2 : KeyboardConfig) (L : Layout)
    (langData : LanguageData) :
    (AnalyzeLayout L cfg1 langData).BigramAnalysis.LSB +
      (AnalyzeLayout L cfg1 langData).BigramAnalysis.LSB2 =
    (AnalyzeLayout L cfg2 langData).BigramAnalysis.LSB +
      (AnalyzeLayout L cfg2 langData).BigramAnalysis.LSB2 := by
  rw [AnalyzeLayout_BigramAnalysis, AnalyzeLayout_BigramAnalysis]
  by_cases ht : 0 < totalBigramFreq L langData
  · simp only [calculateBigrams, if_pos ht]
    have key := bigramSum_add_pair _ _ _ _ langData (lsb_pair_sum cfg1 cfg2 L)
    have hx : ∀ x y : ℚ,
        x / totalBigramFreq L langData * 100 + y / totalBigramFreq L langData * 100 =
        (x + y) * (100 / totalBigramFreq L langData) := fun x y => by ring
    rw [hx, hx, key]
  · simp only [calculateBigrams, if_neg ht]

/-- C8: toggling a strict-mode flag between set (1) and cleared (0) leaves
HSB+HSB2, FSB+FSB2 and LSB+LSB2 unchanged respectively: the flag only
redistributes bigram mass between primary and secondary bucket. -/
theorem C8_strict_redistributes (L : Layout) (config : KeyboardConfig)
    (langData : LanguageData) :
    ((AnalyzeLayout L (setHSBStrictMode config 1) langData).BigramAnalysis.HSB +
       (AnalyzeLayout L (setHSBStrictMode config 1) langData).BigramAnalysis.HSB2 =
     (AnalyzeLayout L (setHSBStrictMode config 0) langData).BigramAnalysis.HSB +
       (AnalyzeLayout L (setHSBStrictMode config 0) langData).BigramAnalysis.HSB2) ∧
    ((AnalyzeLayout L (setFSBStrictMode config 1) langData).BigramAnalysis.FSB +
       (AnalyzeLayout L (setFSBStrictMode config 1) langData).BigramAnalysis.FSB2 =
     (AnalyzeLayout L (setFSBStrictMode config 0) langData).BigramAnalysis.FSB +
       (AnalyzeLayout L (setFSBStrictMode config 0) langData).BigramAnalysis.FSB2) ∧
    ((AnalyzeLayout L (setLSBStrictMode config 1) langData).BigramAnalysis.LSB +
       (AnalyzeLayout L (setLSBStrictMode config 1) langData).BigramAnalysis.LSB2 =
     (AnalyzeLayout L (setLSBStrictMode config 0) langData).BigramAnalysis.LSB +
       (AnalyzeLayout L (setLSBStrictMode config 0) langData).BigramAnalysis.LSB2) :=
  ⟨HSB_pair_config_indep _ _ L langData, FSB_pair_config_indep _ _ L langData,
   LSB_pair_config_indep _ _ L langData⟩

theorem centerDist_ne_of_adjacent :
    ∀ c1 c2 : Col, getHalf c1 = getHalf c2 → ((c1.val : ℤ) - (c2.val : ℤ)).natAbs = 1 →
      centerDist c1 ≠ centerDist c2 := by
  with_unfolding_all decide

/-- C10: every matched bigram reaching the AFI/AFO classifier (same half,
same row, adjacent columns) has strictly different distances to the center
line, so its frequency lands in exactly one of AFI and AFO — the tie
branch is unreachable (the only equidistant adjacent pair, columns 4 and 5,
spans the two halves). -/
theorem C10_afi_afo_exclusive (L : Layout) (e : String × ℚ) (c1 c2 : Char)
    (p1 p2 : Row × Col) (hb : bigramInfo L e.1 = some (c1, c2, p1, p2))
    (hh : getHalf p1.2 = getHalf p2.2) (hr : p1.1 = p2.1) (hc : colDiff p1 p2 = 1) :
    (afiContrib L e = e.2 ∧ afoContrib L e = 0) ∨
    (afiContrib L e = 0 ∧ afoContrib L e = e.2) := by
  have hne : centerDist p1.2 ≠ centerDist p2.2 := by
    apply centerDist_ne_of_adjacent p1.2 p2.2 hh
    unfold colDiff at hc
    exact hc
  rcases lt_or_gt_of_ne hne with hlt | hgt
  · right
    constructor
    · simp only [afiContrib, hb]
      rw [if_neg]
      rintro ⟨-, -, -, h4⟩
      exact absurd hlt (not_lt.mpr (le_of_lt h4))
    · simp only [afoContrib, hb]
      rw [if_pos ⟨hh, hr, hc, hlt⟩]
  · left
    constructor
    · simp only [afiContrib, hb]
      rw [if_pos ⟨hh, hr, hc, hgt⟩]
    · simp only [afoContrib, hb]
      rw [if_neg]
      rintro ⟨-, -, -, h4⟩
      exact absurd hgt (not_lt.mpr (le_of_lt h4))

/-- C10 witness: the bigram `ab` on adjacent same-row cells (0,0) and (0,1)
is classified into exactly one of AFI/AFO (here AFI, since the first
character is farther from the center). -/
theorem C10_witness :
    (afiContrib layoutRowAB ("ab", 1) = 1 ∧ afoContrib layoutRowAB ("ab", 1) = 0) ∨
    (afiContrib layoutRowAB ("ab", 1) = 0 ∧ afoContrib layoutRowAB ("ab", 1) = 1) :=
  C10_afi_afo_exclusive layoutRowAB ("ab", 1) 'a' 'b' (0, 0) (0, 1) rfl rfl rfl (by decide)

theorem tibContrib_nil (config : KeyboardConfig) (L : Layout) (e : String × ℚ) :
    tibContrib { config with BigramIndividualCoeffs := [] } L e = 0 := by
  rcases hb : bigramInfo L e.1 with _ | ⟨c1, c2, p1, p2⟩ <;>
    simp [tibContrib, hb]

theorem bigramSum_tib_nil (config : KeyboardConfig) (L : Layout) (langData : LanguageData) :
    bigramSum (tibContrib { config with BigramIndividualCoeffs := [] } L) langData = 0 := by
  unfold bigramSum
  refine List.sum_eq_zero fun x hx => ?_
  rcases List.mem_map.mp hx with ⟨e, -, he⟩
  rw [← he, tibContrib_nil]

/-- C1 (amended): with positive total matched bigram frequency the TIB
field is the raw override sum rescaled by `100 / totalBigramFreq`, and it
enters the weighted score additively and unweighted: the score equals the
score computed with no overrides plus the TIB term. -/
theorem C1_tib_normalized_additive (L : Layout) (config : KeyboardConfig)
    (langData : LanguageData) (h : 0 < totalBigramFreq L langData) :
    (AnalyzeLayout L config langData).BigramAnalysis.TIB =
      bigramSum (tibContrib config L) langData / totalBigramFreq L langData * 100 ∧
    (AnalyzeLayout L config langData).WeightedScore =
      (AnalyzeLayout L { config with BigramIndividualCoeffs := [] } langData).WeightedScore +
        (AnalyzeLayout L config langData).BigramAnalysis.TIB := by
  have hz := bigramSum_tib_nil config L langData
  constructor
  · rw [AnalyzeLayout_BigramAnalysis]
    simp only [calculateBigrams, if_pos h]
  · have hW' : (AnalyzeLayout L { config with BigramIndividualCoeffs := [] } langData).WeightedScore =
        calculateWeightedScore config (calcTotalEffort L config langData)
          (calculateBigrams L { config with BigramIndividualCoeffs := [] } langData)
          (|calcEffortByHalf L langData 0 - calcEffortByHalf L langData 1|)
          (calculateFDI (calcEffortByFinger L langData) config)
          (calculateMEP (calcEffortByFinger L langData) (calcEffortByRow L langData) config) := rfl
    have ehsb : hsbContrib { config with BigramIndividualCoeffs := [] } L = hsbContrib config L := rfl
    have efsb : fsbContrib { config with BigramIndividualCoeffs := [] } L = fsbContrib config L := rfl
    have elsb : lsbContrib { config with BigramIndividualCoeffs := [] } L = lsbContrib config L := rfl
    rw [AnalyzeLayout_WeightedScore, AnalyzeLayout_BigramAnalysis, hW']
    simp only [calculateBigrams, if_pos h, ehsb, efsb, elsb, hz]
    unfold calculateWeightedScore
    ring

/-- C1 counterexample: on a concrete layout/corpus with total bigram
frequency 1 and one override of coefficient 2, the TIB produced by
`Analyze` is 200 — the raw sum 2 rescaled to a percentage — refuting the
claim that TIB equals the raw additive sum. -/
theorem C1_counterexample : ¬ C1Claim := by
  intro hclaim
  have hpos : 0 < totalBigramFreq layoutAB langAB := by
    with_unfolding_all exact of_decide_eq_true rfl
  have h := (hclaim layoutAB tibConfig langAB hpos).1
  have h200 : (AnalyzeLayout layoutAB tibConfig langAB).BigramAnalysis.TIB = 200 := by
    with_unfolding_all rfl
  have h2 : bigramSum (tibContrib tibConfig layoutAB) langAB = 2 := by
    with_unfolding_all rfl
  rw [h200, h2] at h
  norm_num at h

/-- C1 witness: the amended theorem at the concrete override example —
TIB is 2/1·100 and the score decomposes additively. -/
theorem C1_witness :
    (AnalyzeLayout layoutAB tibConfig langAB).BigramAnalysis.TIB =
      bigramSum (tibContrib tibConfig layoutAB) langAB / totalBigramFreq layoutAB langAB * 100 ∧
    (AnalyzeLayout layoutAB tibConfig langAB).WeightedScore =
      (AnalyzeLayout layoutAB { tibConfig with BigramIndividualCoeffs := [] } langAB).WeightedScore +
        (AnalyzeLayout layoutAB tibConfig langAB).BigramAnalysis.TIB :=
  C1_tib_normalized_additive layoutAB tibConfig langAB
    (by with_unfolding_all exact of_decide_eq_true rfl)

theorem hsbLowerSpecial_iff (p1 p2 : Row × Col) (hd : rowDiff p1 p2 = 1) :
    (hsbLowerSpecial p1 p2 ↔ fingerIsSpecial (lowerPosFinger p1 p2)) := by
  have hne : p1.1 ≠ p2.1 := by
    intro he
    unfold rowDiff at hd
    rw [he, sub_self] at hd
    simp at hd
  unfold hsbLowerSpecial lowerPosFinger
  by_cases hlt : p1.1.val < p2.1.val
  · rw [if_pos hlt]
    simp only [if_pos hlt]
    constructor
    · rintro (⟨he, -⟩ | ⟨-, hs⟩)
      · exact absurd he.symm hne
      · exact hs
    · intro hs
      exact Or.inr ⟨by trivial, hs⟩
  · rw [if_neg hlt]
    simp only [if_neg hlt]
    constructor
    · rintro (⟨-, hs⟩ | ⟨he, -⟩)
      · exact hs
      · exact absurd he hne
    · intro hs
      exact Or.inl ⟨by trivial, hs⟩

theorem fsbBottomSpecial_iff (p1 p2 : Row × Col)
    (hrows : (p1.1.val = 0 ∧ p2.1.val = 2) ∨ (p1.1.val = 2 ∧ p2.1.val = 0)) :
    (fsbBottomSpecial p1 p2 ↔ fingerIsSpecial (bottomRowFinger p1 p2)) := by
  unfold fsbBottomSpecial bottomRowFinger
  rcases hrows with ⟨h1, h2⟩ | ⟨h1, h2⟩
  · rw [if_neg (by omega)]
    constructor
    · rintro (⟨he, -⟩ | ⟨-, hs⟩)
      · omega
      · exact hs
    · intro hs
      exact Or.inr ⟨h2, hs⟩
  · rw [if_pos h1]
    constructor
    · rintro (⟨-, hs⟩ | ⟨he, -⟩)
      · exact hs
      · omega
    · intro hs
      exact Or.inl ⟨h1, hs⟩

/-- C2 (amended): in strict mode a geometry-matching HSB (resp. FSB)
bigram is counted in the primary bucket exactly when the finger of its
lower-positioned (resp. bottom-row) character is one of the code's four
special fingers — fingers 1, 2, 5, 6 in the topology numbering, i.e. the
ring or middle finger of either hand (not the index or ring fingers as the
claim words it) — and is routed to HSB2 (resp. FSB2) otherwise. -/
theorem C2_ring_middle_stretch (config : KeyboardConfig) (L : Layout) (e : String × ℚ)
    (c1 c2 : Char) (p1 p2 : Row × Col) (hb : bigramInfo L e.1 = some (c1, c2, p1, p2)) :
    (config.Weights.HSBStrictMode = 1 → hsbPattern p1 p2 →
      hsbContrib config L e = (if fingerIsSpecial (lowerPosFinger p1 p2) then e.2 else 0) ∧
      hsb2Contrib config L e = (if fingerIsSpecial (lowerPosFinger p1 p2) then 0 else e.2)) ∧
    (config.Weights.FSBStrictMode = 1 → fsbPattern p1 p2 →
      fsbContrib config L e = (if fingerIsSpecial (bottomRowFinger p1 p2) then e.2 else 0) ∧
      fsb2Contrib config L e = (if fingerIsSpecial (bottomRowFinger p1 p2) then 0 else e.2)) := by
  constructor
  · intro hs hp
    have hiff := hsbLowerSpecial_iff p1 p2 hp.2.2.2.1
    constructor
    · simp only [hsbContrib, hb, if_pos hp, if_pos hs, hiff]
    · simp only [hsb2Contrib, hb, if_pos hp, if_pos hs, hiff]
  · intro hs hp
    have hiff := fsbBottomSpecial_iff p1 p2 hp.2.2.2.2.1
    constructor
    · simp only [fsbContrib, hb, if_pos hp, if_pos hs, hiff]
    · simp only [fsb2Contrib, hb, if_pos hp, if_pos hs, hiff]

/-- C2 counterexample: the bigram `ab` with `a` at (0,0) (pinky) and `b` at
(1,3) (an index finger, hence one of the claim's stretch fingers) matches
the HSB geometry, yet strict mode routes it to HSB2 (contribution 0 to the
primary bucket), refuting the claim's finger set. -/
theorem C2_counterexample : ¬ C2Claim := by
  intro hclaim
  have h := ((hclaim strictConfig layoutAB ("ab", 1) 'a' 'b' (0, 0) (1, 3)
    (by with_unfolding_all rfl)).1 rfl (by decide)).1
  have hif : specStretchFinger (lowerPosFinger ((0, 0) : Row × Col) ((1, 3) : Row × Col)) := by
    decide
  rw [if_pos hif] at h
  have h0 : hsbContrib strictConfig layoutAB ("ab", 1) = 0 := by with_unfolding_all rfl
  rw [h0] at h
  norm_num at h

/-- C2 witness: the amended theorem applied at the concrete strict-mode
example — the lower character of `ab` sits on finger 3, which is not
special, so the bigram contributes to HSB2 and not HSB. -/
theorem C2_witness :
    hsbContrib strictConfig layoutAB ("ab", 1) =
      (if fingerIsSpecial (lowerPosFinger ((0, 0) : Row × Col) ((1, 3) : Row × Col))
        then (("ab", (1 : ℚ)) : String × ℚ).2 else 0) ∧
    hsb2Contrib strictConfig layoutAB ("ab", 1) =
      (if fingerIsSpecial (lowerPosFinger ((0, 0) : Row × Col) ((1, 3) : Row × Col))
        then 0 else (("ab", (1 : ℚ)) : String × ℚ).2) :=
  (C2_ring_middle_stretch strictConfig layoutAB ("ab", 1) 'a' 'b' (0, 0) (1, 3)
    (by with_unfolding_all rfl)).1 rfl (by decide)

theorem sortPass_length (x : SimulatedAnnealingResult) :
    ∀ ys : List SimulatedAnnealingResult, ((sortPass x ys).2).length = ys.length := by
  intro ys
  induction ys generalizing x with
  | nil => simp [sortPass]
  | cons y ys ih =>
    by_cases h : y.Score < x.Score <;> simp [sortPass, h, ih]

theorem sortPass_perm (x : SimulatedAnnealingResult) :
    ∀ ys : List SimulatedAnnealingResult,
      List.Perm ((sortPass x ys).1 :: (sortPass x ys).2) (x :: ys) := by
  intro ys
  induction ys generalizing x with
  | nil => simp [sortPass]
  | cons y ys ih =>
    by_cases h : y.Score < x.Score
    · simp only [sortPass, if_pos h]
      exact (List.Perm.swap x (sortPass y ys).1 (sortPass y ys).2).trans ((ih y).cons x)
    · simp only [sortPass, if_neg h]
      exact ((List.Perm.swap y (sortPass x ys).1 (sortPass x ys).2).trans
        ((ih x).cons y)).trans (List.Perm.swap x y ys)

theorem sortPass_min (x : SimulatedAnnealingResult) :
    ∀ ys : List SimulatedAnnealingResult,
      (sortPass x ys).1.Score ≤ x.Score ∧
      ∀ z ∈ ys, (sortPass x ys).1.Score ≤ z.Score := by
  intro ys
  induction ys generalizing x with
  | nil => simp [sortPass]
  | cons y ys ih =>
    by_cases h : y.Score < x.Score
    · simp only [sortPass, if_pos h]
      refine ⟨le_of_lt (lt_of_le_of_lt (ih y).1 h), ?_⟩
      intro z hz
      rcases List.mem_cons.mp hz with rfl | hz'
      · exact (ih z).1
      · exact (ih y).2 z hz'
    · simp only [sortPass, if_neg h]
      refine ⟨(ih x).1, ?_⟩
      intro z hz
      rcases List.mem_cons.mp hz with rfl | hz'
      · exact le_trans (ih x).1 (not_lt.mp h)
      · exact (ih x).2 z hz'

theorem sortResultsAux_perm :
    ∀ (fuel : ℕ) (l : List SimulatedAnnealingResult), l.length ≤ fuel →
      List.Perm (sortResultsAux fuel l) l := by
  intro fuel
  induction fuel with
  | zero =>
    intro l h
    simp [sortResultsAux]
  | succ n ih =>
    intro l h
    cases l with
    | nil => simp [sortResultsAux]
    | cons x xs =>
      have hlen : (sortPass x xs).2.length ≤ n := by
        rw [sortPass_length]
        simpa using h
      show List.Perm ((sortPass x xs).1 :: sortResultsAux n (sortPass x xs).2) (x :: xs)
      exact ((ih _ hlen).cons (sortPass x xs).1).trans (sortPass_perm x xs)

theorem sortResultsAux_sorted :
    ∀ (fuel : ℕ) (l : List SimulatedAnnealingResult), l.length ≤ fuel →
      List.Sorted scoreLE (sortResultsAux fuel l) := by
  intro fuel
  induction fuel with
  | zero =>
    intro l h
    have hl : l = [] := List.eq_nil_of_length_eq_zero (Nat.le_zero.mp h)
    subst hl
    simp [sortResultsAux]
  | succ n ih =>
    intro l h
    cases l with
    | nil => simp [sortResultsAux]
    | cons x xs =>
      have hlen : (sortPass x xs).2.length ≤ n := by
        rw [sortPass_length]
        simpa using h
      show List.Sorted scoreLE ((sortPass x xs).1 :: sortResultsAux n (sortPass x xs).2)
      rw [List.sorted_cons]
      refine ⟨?_, ih _ hlen⟩
      intro b hb
      have hb' : b ∈ (sortPass x xs).2 := (sortResultsAux_perm n _ hlen).mem_iff.mp hb
      have hbx : b ∈ x :: xs :=
        (sortPass_perm x xs).mem_iff.mp (List.mem_cons_of_mem _ hb')
      unfold scoreLE
      rcases List.mem_cons.mp hbx with rfl | hbxs
      · exact (sortPass_min b xs).1
      · exact (sortPass_min x xs).2 b hbxs

theorem sortResultsByScore_perm (l : List SimulatedAnnealingResult) :
    List.Perm (sortResultsByScore l) l :=
  sortResultsAux_perm l.length l le_rfl

theorem sortResultsByScore_sorted (l : List SimulatedAnnealingResult) :
    List.Sorted scoreLE (sortResultsByScore l) :=
  sortResultsAux_sorted l.length l le_rfl

theorem truncateResults_mem {numBest : ℤ} {l : List SimulatedAnnealingResult}
    {y : SimulatedAnnealingResult} (h : y ∈ truncateResults numBest l) : y ∈ l := by
  unfold truncateResults at h
  split_ifs at h with hc
  · exact List.take_subset _ _ h
  · exact h

theorem truncateResults_sorted {numBest : ℤ} {l : List SimulatedAnnealingResult}
    (h : List.Sorted scoreLE l) : List.Sorted scoreLE (truncateResults numBest l) := by
  unfold truncateResults
  split_ifs with hc
  · exact List.Pairwise.sublist (List.take_sublist _ _) h
  · exact h

theorem truncateResults_length {numBest : ℤ} {l : List SimulatedAnnealingResult}
    (h : 0 < numBest) : ((truncateResults numBest l).length : ℤ) ≤ numBest := by
  unfold truncateResults
  split_ifs with hc
  · simp only [List.length_take]
    omega
  · omega

theorem searchRestartLoop_sorted (config : KeyboardConfig) (langData : LanguageData)
    (params : SimulatedAnnealingParams) (numBest : ℤ) (fuel : ℕ) (low : Layout)
    (upper : Row → Col → Bool) :
    ∀ (n ridx : ℕ) (acc : List SimulatedAnnealingResult) (g : Rng),
      List.Sorted scoreLE acc →
      List.Sorted scoreLE
        (searchRestartLoop config langData params numBest fuel low upper n ridx acc g).1 := by
  intro n
  induction n with
  | zero =>
    intro ridx acc g h
    simpa [searchRestartLoop] using h
  | succ m ih =>
    intro ridx acc g h
    simp only [searchRestartLoop]
    exact ih _ _ _ (truncateResults_sorted (sortResultsByScore_sorted _))

/-- C3 (amended): the seeded search's returned list is sorted ascending by
score and, when `numBest > 0`, has at most `numBest` entries. (The
exchange sort is not stable — equal-score results may be reordered — see
the counterexample.) -/
theorem C3_sorted_truncated (config : KeyboardConfig) (langData : LanguageData)
    (params : SimulatedAnnealingParams) (numBest : ℤ) (startLayout : Layout)
    (g : Rng) (fuel : ℕ) :
    List.Sorted scoreLE
      (SearchOptimalLayoutFromSpecificLayout config langData params numBest startLayout g fuel) ∧
    (0 < numBest →
      ((SearchOptimalLayoutFromSpecificLayout config langData params numBest startLayout
          g fuel).length : ℤ) ≤ numBest) := by
  unfold SearchOptimalLayoutFromSpecificLayout
  constructor
  · exact truncateResults_sorted
      (searchRestartLoop_sorted config langData params numBest fuel _ _ params.Restarts 0 [] g
        (by simp))
  · intro h
    exact truncateResults_length h

/-- C3 counterexample: on three results with scores 2, 2, 1 the exchange
sort returns them in order C, B, A — the two equal-score results A and B
have swapped their input order — while the stable ascending sort (insertion
sort by score) returns C, A, B. -/
theorem C3_counterexample : ¬ C3Claim := by
  intro h
  have he := congrArg (List.map fun r => r.Layout.Name) (h [resA, resB, resC])
  have hL : (sortResultsByScore [resA, resB, resC]).map (fun r => r.Layout.Name) =
      ["C", "B", "A"] := by with_unfolding_all rfl
  have hR : (List.insertionSort scoreLE [resA, resB, resC]).map (fun r => r.Layout.Name) =
      ["C", "A", "B"] := by with_unfolding_all rfl
  rw [hL, hR] at he
  exact absurd he (by decide)

/-- C3 witness: the amended theorem at a concrete one-restart search with
`numBest = 1`. -/
theorem C3_witness :
    List.Sorted scoreLE
      (SearchOptimalLayoutFromSpecificLayout freeConfig langAB exParamsZeroIter 1 seedUpper
        exRng 100) ∧
    ((SearchOptimalLayoutFromSpecificLayout freeConfig langAB exParamsZeroIter 1 seedUpper
        exRng 100).length : ℤ) ≤ 1 :=
  ⟨(C3_sorted_truncated freeConfig langAB exParamsZeroIter 1 seedUpper exRng 100).1,
   (C3_sorted_truncated freeConfig langAB exParamsZeroIter 1 seedUpper exRng 100).2
     (by norm_num)⟩

theorem pickOtherIdxGuarded_lt (len idx1 : ℕ) (hlen : 0 < len) :
    ∀ (fuel : ℕ) (g : Rng), (pickOtherIdxGuarded len idx1 fuel g).1 < len := by
  intro fuel
  induction fuel with
  | zero =>
    intro g
    exact Nat.mod_lt _ hlen
  | succ n ih =>
    intro g
    simp only [pickOtherIdxGuarded]
    split_ifs with h
    · exact ih _
    · exact Nat.mod_lt _ hlen

theorem pickOtherIdx_lt (len idx1 : ℕ) (hlen : 0 < len) :
    ∀ (fuel : ℕ) (g : Rng), (pickOtherIdx len idx1 fuel g).1 < len := by
  intro fuel
  induction fuel with
  | zero =>
    intro g
    exact Nat.mod_lt _ hlen
  | succ n ih =>
    intro g
    simp only [pickOtherIdx]
    split_ifs with h
    · exact ih _
    · exact Nat.mod_lt _ hlen

theorem getD_mem_of_lt {α : Type} (l : List α) (i : ℕ) (d : α) (h : i < l.length) :
    l.getD i d ∈ l := by
  induction l generalizing i with
  | nil => simp at h
  | cons a t ih =>
    cases i with
    | zero => simp [List.getD]
    | succ j =>
      rw [List.getD_cons_succ]
      exact List.mem_cons_of_mem a (ih j (by simpa using h))

theorem swapKeys_eq_of_ne (L : Layout) (p q : Row × Col) (r : Row) (c : Col)
    (h1 : (r, c) ≠ p) (h2 : (r, c) ≠ q) : (swapKeys L p q).Keys r c = L.Keys r c := by
  simp [swapKeys, if_neg h1, if_neg h2]

theorem neighborU_diff_mem (L : Layout) (config : KeyboardConfig) (baseLayout : Layout)
    (upper : Row → Col → Bool) (g : Rng) (fuel : ℕ) (r : Row) (c : Col)
    (hne : (generateNeighborFromBaseLayoutWithUppercaseInfo L config baseLayout upper
      g fuel).1.Keys r c ≠ L.Keys r c) :
    (r, c) ∈ swapPositionsWithUppercaseInfo L config baseLayout upper := by
  by_cases hlen : (swapPositionsWithUppercaseInfo L config baseLayout upper).length < 2
  · exfalso
    apply hne
    simp only [generateNeighborFromBaseLayoutWithUppercaseInfo, if_pos hlen]
  · have hpos : 0 < (swapPositionsWithUppercaseInfo L config baseLayout upper).length := by
      omega
    simp only [generateNeighborFromBaseLayoutWithUppercaseInfo, if_neg hlen] at hne
    by_cases h1 : (r, c) =
        (swapPositionsWithUppercaseInfo L config baseLayout upper).getD
          (g.intn (swapPositionsWithUppercaseInfo L config baseLayout upper).length).1 (0, 0)
    · rw [h1]
      apply getD_mem_of_lt
      exact Nat.mod_lt _ hpos
    · by_cases h2 : (r, c) =
          (swapPositionsWithUppercaseInfo L config baseLayout upper).getD
            (pickOtherIdxGuarded (swapPositionsWithUppercaseInfo L config baseLayout upper).length
              (g.intn (swapPositionsWithUppercaseInfo L config baseLayout upper).length).1 fuel
              (g.intn (swapPositionsWithUppercaseInfo L config baseLayout upper).length).2).1
            (0, 0)
      · rw [h2]
        apply getD_mem_of_lt
        exact pickOtherIdxGuarded_lt _ _ hpos _ _
      · exact absurd (swapKeys_eq_of_ne L _ _ r c h1 h2) hne

theorem memSwapPositions_spec (L : Layout) (config : KeyboardConfig) (baseLayout : Layout)
    (upper : Row → Col → Bool) (r : Row) (c : Col)
    (h : (r, c) ∈ swapPositionsWithUppercaseInfo L config baseLayout upper) :
    eligibleUnlocked config upper L r c := by
  unfold swapPositionsWithUppercaseInfo at h
  have hp := (List.mem_filter.mp h).2
  unfold eligibleUnlocked lockedU
  by_cases hu : hasUppercaseIn upper = true
  · simp only [hu, if_true, decide_eq_true_eq] at hp
    rw [if_pos hu]
    exact ⟨hp.1, hp.2.1, fun hc => hp.2.2 hc⟩
  · simp only [hu, if_false, Bool.false_eq_true, decide_eq_true_eq] at hp
    rw [if_neg hu]
    exact ⟨hp.2.1, hp.2.2.1, fun hc => hc hp.1⟩

theorem neighborU_locked (L : Layout) (config : KeyboardConfig) (baseLayout : Layout)
    (upper : Row → Col → Bool) (g : Rng) (fuel : ℕ) (r : Row) (c : Col)
    (hlock : lockedU config upper r c) :
    (generateNeighborFromBaseLayoutWithUppercaseInfo L config baseLayout upper
      g fuel).1.Keys r c = L.Keys r c := by
  by_contra hne
  exact (memSwapPositions_spec L config baseLayout upper r c
    (neighborU_diff_mem L config baseLayout upper g fuel r c hne)).2.2 hlock

theorem length_filter_mono {α : Type} (l : List α) (p q : α → Bool)
    (h : ∀ a ∈ l, p a = true → q a = true) :
    (l.filter p).length ≤ (l.filter q).length := by
  induction l with
  | nil => simp
  | cons a t ih =>
    have ih' := ih fun x hx => h x (List.mem_cons_of_mem a hx)
    by_cases hp : p a = true
    · rw [List.filter_cons_of_pos hp, List.filter_cons_of_pos (h a (List.mem_cons_self a t) hp)]
      simpa using ih'
    · rw [List.filter_cons_of_neg (by simpa using hp)]
      by_cases hq : q a = true
      · rw [List.filter_cons_of_pos hq]
        exact le_trans ih' (by simp)
      · rw [List.filter_cons_of_neg (by simpa using hq)]
        exact ih'

theorem swapPositions_length_le (L : Layout) (config : KeyboardConfig) (baseLayout : Layout)
    (upper : Row → Col → Bool) :
    (swapPositionsWithUppercaseInfo L config baseLayout upper).length ≤
      eligibleUnlockedCount config upper L := by
  unfold swapPositionsWithUppercaseInfo eligibleUnlockedCount
  apply length_filter_mono
  intro a ha hp
  have hmem : a ∈ cells.filter fun p =>
      if hasUppercaseIn upper then
        L.Keys p.1 p.2 ≠ "" ∧ L.Keys p.1 p.2 ≠ " " ∧ ¬ upper p.1 p.2 = true
      else
        config.FixedPositions p.1 p.2 = "." ∧ L.Keys p.1 p.2 ≠ "" ∧
        L.Keys p.1 p.2 ≠ " " ∧ ¬ isUppercase (baseLayout.Keys p.1 p.2) = true :=
    List.mem_filter.mpr ⟨ha, hp⟩
  have := memSwapPositions_spec L config baseLayout upper a.1 a.2 (by
    unfold swapPositionsWithUppercaseInfo
    simpa using hmem)
  simpa using this

/-- C6 (amended): for `generateNeighborFromBaseLayoutWithUppercaseInfo`,
with fewer than two eligible positions (unlocked under the resolved rule,
nonempty, non-space) the neighbor equals the input layout — no failure —
and any position the neighbor changes is eligible. (`generateNeighbor`, by
contrast, treats empty unlocked cells as swappable; see the
counterexample.) -/
theorem C6_neighbor_eligibility (L : Layout) (config : KeyboardConfig)
    (baseLayout : Layout) (upper : Row → Col → Bool) (g : Rng) (fuel : ℕ) :
    (eligibleUnlockedCount config upper L < 2 →
      (generateNeighborFromBaseLayoutWithUppercaseInfo L config baseLayout upper
        g fuel).1 = L) ∧
    (∀ (r : Row) (c : Col),
      (generateNeighborFromBaseLayoutWithUppercaseInfo L config baseLayout upper
        g fuel).1.Keys r c ≠ L.Keys r c →
      eligibleUnlocked config upper L r c) := by
  constructor
  · intro hcount
    have hlen : (swapPositionsWithUppercaseInfo L config baseLayout upper).length < 2 :=
      lt_of_le_of_lt (swapPositions_length_le L config baseLayout upper) hcount
    simp only [generateNeighborFromBaseLayoutWithUppercaseInfo, if_pos hlen]
  · intro r c hne
    exact memSwapPositions_spec L config baseLayout upper r c
      (neighborU_diff_mem L config baseLayout upper g fuel r c hne)

/-- C6 counterexample: `layoutSingleA` holds a single character and a fully
free mask, so only one position is eligible in the claim's sense, yet
`generateNeighbor` (whose swappable set admits empty cells) swaps the lone
`a` from (0,0) to (0,1) and returns a changed layout. -/
theorem C6_counterexample : ¬ C6Claim := by
  intro h
  have hcount : eligibleCount freeConfig layoutSingleA < 2 := by decide
  have heq := (h layoutSingleA freeConfig exRng 100).1 hcount
  have h2 : (generateNeighbor layoutSingleA freeConfig exRng 100).1.Keys 0 1 =
      layoutSingleA.Keys 0 1 := congrArg (fun l => l.Keys 0 1) heq
  have hL : (generateNeighbor layoutSingleA freeConfig exRng 100).1.Keys 0 1 = "a" := by
    with_unfolding_all rfl
  have hR : layoutSingleA.Keys 0 1 = "" := rfl
  rw [hL, hR] at h2
  exact absurd h2 (by decide)

/-- C6 witness: on the all-empty layout no position is eligible and the
neighbor generator returns the layout unchanged. -/
theorem C6_witness :
    eligibleUnlockedCount freeConfig falseUpper emptyLayout < 2 ∧
    (generateNeighborFromBaseLayoutWithUppercaseInfo emptyLayout freeConfig emptyLayout
      falseUpper exRng 5).1 = emptyLayout :=
  ⟨by decide,
   (C6_neighbor_eligibility emptyLayout freeConfig emptyLayout falseUpper exRng 5).1
     (by decide)⟩

theorem annealStep_cur_bestL (config : KeyboardConfig) (langData : LanguageData)
    (params : SimulatedAnnealingParams) (base : Layout) (upper : Row → Col → Bool)
    (fuel : ℕ) (st : SAState) :
    ((annealStep config langData params base upper fuel st).cur = st.cur ∨
     (annealStep config langData params base upper fuel st).cur =
       (generateNeighborFromBaseLayoutWithUppercaseInfo st.cur config base upper
         st.rng fuel).1) ∧
    ((annealStep config langData params base upper fuel st).bestL = st.bestL ∨
     (annealStep config langData params base upper fuel st).bestL =
       (generateNeighborFromBaseLayoutWithUppercaseInfo st.cur config base upper
         st.rng fuel).1) := by
  simp only [annealStep]
  split_ifs <;> simp

theorem anneal_iterate_agrees (config : KeyboardConfig) (langData : LanguageData)
    (params : SimulatedAnnealingParams) (base : Layout) (upper : Row → Col → Bool)
    (fuel : ℕ) (low : Layout) :
    ∀ (n : ℕ) (st : SAState),
      (∀ (r : Row) (c : Col), lockedU config upper r c → st.cur.Keys r c = low.Keys r c) →
      (∀ (r : Row) (c : Col), lockedU config upper r c → st.bestL.Keys r c = low.Keys r c) →
      (∀ (r : Row) (c : Col), lockedU config upper r c →
        ((annealStep config langData params base upper fuel)^[n] st).cur.Keys r c =
          low.Keys r c) ∧
      (∀ (r : Row) (c : Col), lockedU config upper r c →
        ((annealStep config langData params base upper fuel)^[n] st).bestL.Keys r c =
          low.Keys r c) := by
  intro n
  induction n with
  | zero =>
    intro st h1 h2
    simpa using ⟨h1, h2⟩
  | succ m ih =>
    intro st h1 h2
    rw [Function.iterate_succ_apply]
    apply ih
    · intro r c hl
      rcases (annealStep_cur_bestL config langData params base upper fuel st).1 with he | he
      · rw [he]
        exact h1 r c hl
      · rw [he, neighborU_locked st.cur config base upper st.rng fuel r c hl]
        exact h1 r c hl
    · intro r c hl
      rcases (annealStep_cur_bestL config langData params base upper fuel st).2 with he | he
      · rw [he]
        exact h2 r c hl
      · rw [he, neighborU_locked st.cur config base upper st.rng fuel r c hl]
        exact h1 r c hl

theorem restartStartLayout_agrees (low : Layout) (ridx : ℕ)
    (acc : List SimulatedAnnealingResult)
    (P : Layout → Prop) (hlow : P low) (hacc : ∀ res ∈ acc, P res.Layout) :
    P (restartStartLayout low ridx acc) := by
  unfold restartStartLayout
  split_ifs with hr
  · cases acc with
    | nil => exact hlow
    | cons a t => exact hacc a (List.mem_cons_self a t)
  · exact hlow

theorem annealRestart_bestL_agrees (config : KeyboardConfig) (langData : LanguageData)
    (params : SimulatedAnnealingParams) (upper : Row → Col → Bool) (fuel : ℕ)
    (low : Layout) (cl : Layout) (g : Rng)
    (hcl : ∀ (r : Row) (c : Col), lockedU config upper r c → cl.Keys r c = low.Keys r c) :
    ∀ (r : Row) (c : Col), lockedU config upper r c →
      (annealRestart config langData params low upper fuel cl g).bestL.Keys r c =
        low.Keys r c := by
  unfold annealRestart
  exact (anneal_iterate_agrees config langData params low upper fuel low
    params.Iterations (restartInitState config langData params cl g) hcl hcl).2

theorem searchRestartLoop_agrees (config : KeyboardConfig) (langData : LanguageData)
    (params : SimulatedAnnealingParams) (numBest : ℤ) (fuel : ℕ) (low : Layout)
    (upper : Row → Col → Bool) :
    ∀ (n ridx : ℕ) (acc : List SimulatedAnnealingResult) (g : Rng),
      (∀ res ∈ acc, ∀ (r : Row) (c : Col), lockedU config upper r c →
        res.Layout.Keys r c = low.Keys r c) →
      ∀ res ∈ (searchRestartLoop config langData params numBest fuel low upper
          n ridx acc g).1,
        ∀ (r : Row) (c : Col), lockedU config upper r c →
          res.Layout.Keys r c = low.Keys r c := by
  intro n
  induction n with
  | zero =>
    intro ridx acc g hacc
    simpa [searchRestartLoop] using hacc
  | succ m ih =>
    intro ridx acc g hacc
    have hcl : ∀ (r : Row) (c : Col), lockedU config upper r c →
        (restartStartLayout low ridx acc).Keys r c = low.Keys r c := by
      intro r c hl
      exact restartStartLayout_agrees low ridx acc
        (fun lay => lay.Keys r c = low.Keys r c) rfl
        (fun res hres => hacc res hres r c hl)
    simp only [searchRestartLoop]
    apply ih
    intro res hres r c hl
    have hres2 := (sortResultsByScore_perm _).mem_iff.mp (truncateResults_mem hres)
    rcases List.mem_append.mp hres2 with hin | hin
    · exact hacc res hin r c hl
    · have heq := List.mem_singleton.mp hin
      rw [heq]
      exact annealRestart_bestL_agrees config langData params upper fuel low
        (restartStartLayout low ridx acc) g hcl r c hl

theorem createLowercase_upper_eq (seed : Layout) (r : Row) (c : Col) :
    (createLowercaseLayout seed).2 r c = isUppercase (seed.Keys r c) := by
  show (if seed.Keys r c ≠ "" ∧ seed.Keys r c ≠ " " then isUppercase (seed.Keys r c)
    else false) = isUppercase (seed.Keys r c)
  split_ifs with h
  · rfl
  · rcases not_and_or.mp h with h1 | h2
    · rw [not_ne_iff.mp h1]
      rfl
    · rw [not_ne_iff.mp h2]
      rfl

theorem hasUppercaseIn_createLowercase (seed : Layout) :
    hasUppercaseIn (createLowercaseLayout seed).2 = hasUppercaseLetters seed := by
  unfold hasUppercaseIn hasUppercaseLetters
  simp only [createLowercase_upper_eq]

theorem lockedU_createLowercase_iff (config : KeyboardConfig) (seed : Layout)
    (r : Row) (c : Col) :
    (lockedU config (createLowercaseLayout seed).2 r c ↔ lockedResolved config seed r c) := by
  unfold lockedU lockedResolved
  rw [hasUppercaseIn_createLowercase]
  by_cases hs : hasUppercaseLetters seed = true
  · rw [if_pos hs, if_pos hs, createLowercase_upper_eq]
  · rw [if_neg hs, if_neg hs]

/-- C5 (amended): at every position locked by the resolved lock set —
the seed's uppercase positions when any exist, otherwise the config mask's
non-`"."` positions — every result returned by the seeded search carries
the same character as the lowercase-normalized seed (for an uppercase-
locked position this is the lowercased form of the seed's character, not
the seed's character itself; see the counterexample). -/
theorem C5_locked_positions (config : KeyboardConfig) (langData : LanguageData)
    (params : SimulatedAnnealingParams) (numBest : ℤ) (startLayout : Layout)
    (g : Rng) (fuel : ℕ) :
    ∀ (i : ℕ) (hi : i < (SearchOptimalLayoutFromSpecificLayout config langData params
        numBest startLayout g fuel).length) (r : Row) (c : Col),
      lockedResolved config startLayout r c →
      ((SearchOptimalLayoutFromSpecificLayout config langData params numBest startLayout
          g fuel).get ⟨i, hi⟩).Layout.Keys r c =
        (createLowercaseLayout startLayout).1.Keys r c := by
  intro i hi r c hl
  have hmem : (SearchOptimalLayoutFromSpecificLayout config langData params numBest
      startLayout g fuel).get ⟨i, hi⟩ ∈
      SearchOptimalLayoutFromSpecificLayout config langData params numBest startLayout
        g fuel := List.get_mem _ _ hi
  have hlU : lockedU config (createLowercaseLayout startLayout).2 r c :=
    (lockedU_createLowercase_iff config startLayout r c).mpr hl
  simp only [SearchOptimalLayoutFromSpecificLayout] at hmem
  exact searchRestartLoop_agrees config langData params numBest fuel
    (createLowercaseLayout startLayout).1 (createLowercaseLayout startLayout).2
    params.Restarts 0 [] g (by simp) _ (truncateResults_mem hmem) r c hlU

theorem searchRestartLoop_zero (config : KeyboardConfig) (langData : LanguageData)
    (params : SimulatedAnnealingParams) (numBest : ℤ) (fuel : ℕ) (low : Layout)
    (upper : Row → Col → Bool) (h0 : params.Iterations = 0) :
    ∀ (n ridx : ℕ) (acc : List SimulatedAnnealingResult) (g : Rng),
      (∀ res ∈ acc, res.Layout = low ∧
        res.Score = (AnalyzeLayout low config langData).WeightedScore) →
      ∀ res ∈ (searchRestartLoop config langData params numBest fuel low upper
          n ridx acc g).1,
        res.Layout = low ∧
        res.Score = (AnalyzeLayout low config langData).WeightedScore := by
  intro n
  induction n with
  | zero =>
    intro ridx acc g hacc
    simpa [searchRestartLoop] using hacc
  | succ m ih =>
    intro ridx acc g hacc
    have hcl : restartStartLayout low ridx acc = low :=
      restartStartLayout_agrees low ridx acc (fun lay => lay = low) rfl
        (fun res hres => (hacc res hres).1)
    have hst : annealRestart config langData params low upper fuel
        (restartStartLayout low ridx acc) g =
        restartInitState config langData params low g := by
      unfold annealRestart
      rw [h0, hcl]
      simp
    simp only [searchRestartLoop]
    apply ih
    intro res hres
    have hres2 := (sortResultsByScore_perm _).mem_iff.mp (truncateResults_mem hres)
    rcases List.mem_append.mp hres2 with hin | hin
    · exact hacc res hin
    · have heq := List.mem_singleton.mp hin
      rw [heq, hst]
      exact ⟨rfl, rfl⟩

/-- C4 (amended): with zero iterations, every result returned by the
seeded search carries the lowercase-normalized seed layout and the weighted
score of analyzing that lowercased seed (not the seed itself; for a seed
containing uppercase letters the two differ — see the counterexample). -/
theorem C4_zero_iterations (config : KeyboardConfig) (langData : LanguageData)
    (params : SimulatedAnnealingParams) (numBest : ℤ) (startLayout : Layout)
    (g : Rng) (fuel : ℕ) (h0 : params.Iterations = 0) :
    ∀ (i : ℕ) (hi : i < (SearchOptimalLayoutFromSpecificLayout config langData params
        numBest startLayout g fuel).length),
      ((SearchOptimalLayoutFromSpecificLayout config langData params numBest startLayout
          g fuel).get ⟨i, hi⟩).Layout = (createLowercaseLayout startLayout).1 ∧
      ((SearchOptimalLayoutFromSpecificLayout config langData params numBest startLayout
          g fuel).get ⟨i, hi⟩).Score =
        (AnalyzeLayout (createLowercaseLayout startLayout).1 config langData).WeightedScore := by
  intro i hi
  have hmem : (SearchOptimalLayoutFromSpecificLayout config langData params numBest
      startLayout g fuel).get ⟨i, hi⟩ ∈
      SearchOptimalLayoutFromSpecificLayout config langData params numBest startLayout
        g fuel := List.get_mem _ _ hi
  simp only [SearchOptimalLayoutFromSpecificLayout] at hmem
  exact searchRestartLoop_zero config langData params numBest fuel
    (createLowercaseLayout startLayout).1 (createLowercaseLayout startLayout).2 h0
    params.Restarts 0 [] g (by simp) _ (truncateResults_mem hmem)

theorem exSearchUpper_len : 0 < exSearchUpper.length := by
  with_unfolding_all exact of_decide_eq_true rfl

/-- C4 counterexample: the zero-iteration search from the seed whose (0,0)
key is the uppercase `A` returns a layout carrying the lowercase `a`
there, so the returned layout does not equal the seed. -/
theorem C4_counterexample : ¬ C4Claim := by
  intro hclaim
  have h1 := (hclaim freeConfig langAB exParamsZeroIter 0 seedUpper exRng 100 rfl 0
    exSearchUpper_len).1
  have h2 : (exSearchUpper.get ⟨0, exSearchUpper_len⟩).Layout.Keys 0 0 =
      seedUpper.Keys 0 0 := congrArg (fun L => L.Keys 0 0) h1
  have hL : (exSearchUpper.get ⟨0, exSearchUpper_len⟩).Layout.Keys 0 0 = "a" := by
    with_unfolding_all rfl
  have hR : seedUpper.Keys 0 0 = "A" := rfl
  rw [hL, hR] at h2
  exact absurd h2 (by decide)

/-- C4 witness: the amended theorem at the concrete zero-iteration search,
giving the lowercased seed and its score. -/
theorem C4_witness :
    exParamsZeroIter.Iterations = 0 ∧
    (exSearchUpper.get ⟨0, exSearchUpper_len⟩).Layout =
      (createLowercaseLayout seedUpper).1 ∧
    (exSearchUpper.get ⟨0, exSearchUpper_len⟩).Score =
      (AnalyzeLayout (createLowercaseLayout seedUpper).1 freeConfig langAB).WeightedScore :=
  ⟨rfl,
   (C4_zero_iterations freeConfig langAB exParamsZeroIter 0 seedUpper exRng 100 rfl 0
     exSearchUpper_len).1,
   (C4_zero_iterations freeConfig langAB exParamsZeroIter 0 seedUpper exRng 100 rfl 0
     exSearchUpper_len).2⟩

/-- C5 counterexample: position (0,0) is locked (the seed's `A` is
uppercase), yet the returned layout carries `a` there while the seed
carries `A` — the locked position does not hold the seed's character. -/
theorem C5_counterexample : ¬ C5Claim := by
  intro hclaim
  have hlock : lockedResolved freeConfig seedUpper 0 0 := by decide
  have h1 : (exSearchUpper.get ⟨0, exSearchUpper_len⟩).Layout.Keys 0 0 =
      seedUpper.Keys 0 0 := hclaim freeConfig langAB exParamsZeroIter 0 seedUpper exRng 100 0
    exSearchUpper_len 0 0 hlock
  have hL : (exSearchUpper.get ⟨0, exSearchUpper_len⟩).Layout.Keys 0 0 = "a" := by
    with_unfolding_all rfl
  have hR : seedUpper.Keys 0 0 = "A" := rfl
  rw [hL, hR] at h1
  exact absurd h1 (by decide)

/-- C5 witness: the amended theorem at the concrete run — the locked
position (0,0) carries the lowercased seed's character. -/
theorem C5_witness :
    lockedResolved freeConfig seedUpper 0 0 ∧
    (exSearchUpper.get ⟨0, exSearchUpper_len⟩).Layout.Keys 0 0 =
      (createLowercaseLayout seedUpper).1.Keys 0 0 :=
  ⟨by decide,
   C5_locked_positions freeConfig langAB exParamsZeroIter 0 seedUpper exRng 100 0
     exSearchUpper_len 0 0 (by decide)⟩
